import Mathlib

/-!
Shallow embedding of the PrismaCrudRouter CRUD library: request payloads are
modelled as JSON values, the router's relation detector, constraint checker,
cascade pass, response formatter and route handlers are translated from the
JavaScript source, and the spec's claims about them are proved or refuted.
-/

set_option maxRecDepth 4000

/-- A JSON value, as produced by `JSON.parse` of a request body or query
parameter.  Numbers are modelled as integers (the payloads the claims concern
carry integral numbers); objects are insertion-ordered key/value lists, as in
JavaScript. -/
inductive JsValue where
  | vNull : JsValue
  | vBool (b : Bool) : JsValue
  | vNum (n : Int) : JsValue
  | vStr (s : String) : JsValue
  | vArr (elems : List JsValue) : JsValue
  | vObj (fields : List (String × JsValue)) : JsValue
deriving Repr

namespace JsValue

/-- The JavaScript test `value === null`. -/
def isNull : JsValue → Bool
  | vNull => true
  | _ => false

/-- `Array.isArray(value)`. -/
def isArr : JsValue → Bool
  | vArr _ => true
  | _ => false

/-- A plain (non-null, non-array) object. -/
def isObj : JsValue → Bool
  | vObj _ => true
  | _ => false

/-- JavaScript `typeof value === 'object'`: true for `null`, arrays and plain
objects, false for booleans, numbers and strings. -/
def typeofIsObject : JsValue → Bool
  | vNull => true
  | vArr _ => true
  | vObj _ => true
  | _ => false

/-- JavaScript truthiness: `null`, `false`, `0` and `""` are falsy. -/
def jsTruthy : JsValue → Bool
  | vNull => false
  | vBool b => b
  | vNum n => n ≠ 0
  | vStr s => s ≠ ""
  | vArr _ => true
  | vObj _ => true

/-- `Object.entries(value)`: the own enumerable key/value pairs.  Arrays
enumerate their elements under their decimal index keys; primitives have no
entries. -/
def jsEntries : JsValue → List (String × JsValue)
  | vObj fs => fs
  | vArr xs => xs.enum.map fun p => (toString p.1, p.2)
  | vStr s => s.toList.enum.map fun p => (toString p.1, vStr (String.mk [p.2]))
  | _ => []

/-- `Object.keys(value)`: key list of `Object.entries`, except that strings
enumerate their character indices. -/
def jsKeys : JsValue → List String
  | vObj fs => fs.map Prod.fst
  | vArr xs => (List.range xs.length).map toString
  | vStr s => (List.range s.length).map toString
  | _ => []

end JsValue

/-- Property read `data[key]` on a JS object modelled as an ordered field
list: the value at the first matching key, `none` for `undefined`. -/
def propLookup (fields : List (String × JsValue)) (key : String) : Option JsValue :=
  match fields.find? (fun p => p.1 = key) with
  | some p => some p.2
  | none => none

/-- Property write `obj[key] = v`: overwrite in place if the key exists,
otherwise append (JS insertion-order semantics). -/
def setProp (fields : List (String × JsValue)) (key : String) (v : JsValue) :
    List (String × JsValue) :=
  if fields.any (fun p => p.1 = key) then
    fields.map (fun p => if p.1 = key then (key, v) else p)
  else
    fields ++ [(key, v)]

/-- Object spread `{...base, ...extra}` restricted to the entry lists: each
entry of `extra` is assigned onto `base` in order. -/
def spreadInto (base extra : List (String × JsValue)) : List (String × JsValue) :=
  extra.foldl (fun acc p => setProp acc p.1 p.2) base

/-- The fixed key exclusion set of `detectRelationTypes`
(`['id', 'createdAt', 'updatedAt', 'uploadedFiles']`). -/
def relationExcludedKeys : List String := ["id", "createdAt", "updatedAt", "uploadedFiles"]

/-- The `continue` guard of the `detectRelationTypes` loop:
`typeof value !== 'object' || value === null || excluded.includes(key)`. -/
def detectSkips (key : String) (value : JsValue) : Bool :=
  !value.typeofIsObject || value.isNull || relationExcludedKeys.contains key

/-- The classification loop of `detectRelationTypes`: walks the entries in
order, returning `(singleRelations, bulkRelations)`; array values go to the
bulk map, plain-object values to the single map, everything else is skipped. -/
def detectRelationTypesGo :
    List (String × JsValue) → List (String × JsValue) × List (String × JsValue)
  | [] => ([], [])
  | (key, value) :: rest =>
    let r := detectRelationTypesGo rest
    if detectSkips key value then r
    else
      match value with
      | .vArr xs => (r.1, (key, .vArr xs) :: r.2)
      | .vObj fs => ((key, .vObj fs) :: r.1, r.2)
      | _ => r

/-- `detectRelationTypes(data)` from the route closure: returns empty maps when
`autoDetectRelations` is disabled, otherwise classifies the payload's entries. -/
def detectRelationTypes (autoDetectRelations : Bool) (data : List (String × JsValue)) :
    List (String × JsValue) × List (String × JsValue) :=
  if !autoDetectRelations then ([], [])
  else detectRelationTypesGo data

/-- `processNestedData(data)`: copies the payload, detects relations, and
deletes every detected relation key from the copy, returning
`(mainData, singleRelations, bulkRelations)`. -/
def processNestedData (autoDetectRelations : Bool) (data : List (String × JsValue)) :
    List (String × JsValue) × List (String × JsValue) × List (String × JsValue) :=
  let sr := detectRelationTypes autoDetectRelations data
  let mainData := data.filter fun p =>
    !(sr.1.any fun q => q.1 = p.1) && !(sr.2.any fun q => q.1 = p.1)
  (mainData, sr.1, sr.2)


/-! ### DatabaseAnalyzer: constraint checking and cascade operations -/

/-- A foreign-key descriptor of the analyzed model structure
(`structure.foreignKeys` entries, restricted to the parts the checks read). -/
structure ForeignKey where
  field : String
  referencedModel : String

/-- The cached model structure produced by `analyzeDatabaseStructure`
(the fields that `checkConstraints` and `handleCascadeOperations` consult). -/
structure ModelStructure where
  requiredFields : List String
  uniqueConstraints : List String
  foreignKeys : List ForeignKey
  hasRelations : Bool
  cascadeDelete : List String
  cascadeUpdate : List String

/-- One violation string pushed by `checkConstraints`, kept structured so the
kind of violation stays visible. -/
inductive Violation where
  | requiredMissing (field : String)
  | uniqueViolation (field : String)
  | foreignKeyViolation (field : String) (referencedModel : String)
  | foreignKeyCheckError (field : String)
deriving DecidableEq, Repr

/-- The result record of `checkConstraints`. -/
structure ConstraintCheckResult where
  isValid : Bool
  violations : List Violation

/-- The persistence lookups `checkConstraints` performs: `findFirst` on a
unique field (may throw, caught with `console.error`), and resolution of a
referenced model followed by `findUnique` on its id (resolution failure is
silent, a throwing `findUnique` is reported). -/
structure ConstraintEnv where
  findFirst : String → JsValue → Except Unit Bool
  referencedExists : String → Option (JsValue → Except Unit Bool)

/-- `data[field] === undefined || data[field] === null || data[field] === ''`. -/
def isMissingOrEmpty : Option JsValue → Bool
  | none => true
  | some .vNull => true
  | some (.vStr s) => s = ""
  | some _ => false

/-- `DatabaseAnalyzer.checkConstraints(operation, data, model)`: required-field
check on create only, then the uniqueness lookups, then the foreign-key
lookups; valid iff no violation was collected.  A `none` structure (analysis
failed) short-circuits to valid. -/
def checkConstraints (env : ConstraintEnv) (operation : String)
    (data : List (String × JsValue)) (mstruct : Option ModelStructure) :
    ConstraintCheckResult :=
  match mstruct with
  | none => { isValid := true, violations := [] }
  | some st =>
    let requiredViolations :=
      if operation = "create" then
        (st.requiredFields.filter fun f => isMissingOrEmpty (propLookup data f)).map
          Violation.requiredMissing
      else []
    let uniqueViolations := st.uniqueConstraints.filterMap fun f =>
      match propLookup data f with
      | none => none
      | some v =>
        match env.findFirst f v with
        | .ok true => some (Violation.uniqueViolation f)
        | .ok false => none
        | .error _ => none
    let fkViolations := st.foreignKeys.filterMap fun fk =>
      match propLookup data fk.field with
      | none => none
      | some v =>
        match env.referencedExists fk.referencedModel with
        | none => none
        | some findUniqueById =>
          match findUniqueById v with
          | .ok true => none
          | .ok false => some (Violation.foreignKeyViolation fk.field fk.referencedModel)
          | .error _ => some (Violation.foreignKeyCheckError fk.field)
    let violations := requiredViolations ++ uniqueViolations ++ fkViolations
    { isValid := violations.isEmpty, violations := violations }

/-- The persistence calls of the cascade pass: `findMany` on a cascade field
(returning matching record ids), `delete` by id, and `updateMany` by field —
each may throw, carrying an error message. -/
structure CascadeEnv where
  findManyByField : String → Except String (List Int)
  deleteById : Int → Except String Unit
  updateManyByField : String → Int → JsValue → Except String Unit

/-- One entry of `cascadeResults`; error entries are the ones whose message
text contains `Error`. -/
inductive CascadeMsg where
  | deletedRecord (id : Int)
  | updatedRecords (field : String)
  | cascadeError (field : String) (msg : String)
deriving Repr

/-- `r.includes('Error')` on a cascade result message. -/
def msgIsError : CascadeMsg → Bool
  | .cascadeError _ _ => true
  | _ => false

/-- The inner record loop of the cascade delete pass: deletes the related
records one by one; a throwing delete is caught by the per-field handler,
recorded, and ends that field (remaining records are skipped). -/
def cascadeDeleteRecords (env : CascadeEnv) (field : String) :
    List Int → List CascadeMsg
  | [] => []
  | id :: rest =>
    match env.deleteById id with
    | .ok _ => .deletedRecord id :: cascadeDeleteRecords env field rest
    | .error e => [.cascadeError field e]

/-- One cascade-delete field: `findMany` then the record loop, the whole body
wrapped in try/catch so a throwing lookup only records an error entry. -/
def cascadeDeleteField (env : CascadeEnv) (field : String) : List CascadeMsg :=
  match env.findManyByField field with
  | .error e => [.cascadeError field e]
  | .ok ids => cascadeDeleteRecords env field ids

/-- One cascade-update field: only acts when the payload carries the field;
a throwing `updateMany` records an error entry. -/
def cascadeUpdateField (env : CascadeEnv) (data : List (String × JsValue))
    (id : Int) (field : String) : List CascadeMsg :=
  match propLookup data field with
  | none => []
  | some v =>
    match env.updateManyByField field id v with
    | .ok _ => [.updatedRecords field]
    | .error e => [.cascadeError field e]

/-- `DatabaseAnalyzer.handleCascadeOperations(operation, data, model, id)`:
returns `(success, results)`; success iff no collected entry is an error
entry.  `none` structure or a structure without relations short-circuits to
success with no results. -/
def handleCascadeOperations (env : CascadeEnv) (operation : String)
    (data : List (String × JsValue)) (mstruct : Option ModelStructure)
    (id : Int) : Bool × List CascadeMsg :=
  match mstruct with
  | none => (true, [])
  | some st =>
    if !st.hasRelations then (true, [])
    else
      let deleteResults :=
        if operation = "delete" && st.cascadeDelete.length > 0 then
          st.cascadeDelete.flatMap (cascadeDeleteField env)
        else []
      let updateResults :=
        if operation = "update" && st.cascadeUpdate.length > 0 then
          st.cascadeUpdate.flatMap (cascadeUpdateField env data id)
        else []
      let results := deleteResults ++ updateResults
      (results.isEmpty || results.all (fun m => !msgIsError m), results)

/-! ### JSON serialization (JSON.stringify), UTF-8 and base64
(Buffer.toString('base64')) -/

def jsonQuoteChar : Char := Char.ofNat 34

def jsonBackslashChar : Char := Char.ofNat 92

def lbraceChar : Char := Char.ofNat 123

def rbraceChar : Char := Char.ofNat 125

def lbracketChar : Char := Char.ofNat 91

def rbracketChar : Char := Char.ofNat 93

def commaChar : Char := Char.ofNat 44

def colonChar : Char := Char.ofNat 58

def minusChar : Char := Char.ofNat 45

def equalsChar : Char := Char.ofNat 61

/-- Lowercase hex digit, as used by the `\u00XX` escapes of
`JSON.stringify`. -/
def hexDigitChar (n : Nat) : Char :=
  if n < 10 then Char.ofNat (48 + n) else Char.ofNat (87 + n)

/-- The escaping `JSON.stringify` applies to one string character. -/
def escapeJsonChar (c : Char) : List Char :=
  if c = jsonQuoteChar then [jsonBackslashChar, jsonQuoteChar]
  else if c = jsonBackslashChar then [jsonBackslashChar, jsonBackslashChar]
  else if c.toNat = 8 then [jsonBackslashChar, 'b']
  else if c.toNat = 9 then [jsonBackslashChar, 't']
  else if c.toNat = 10 then [jsonBackslashChar, 'n']
  else if c.toNat = 12 then [jsonBackslashChar, 'f']
  else if c.toNat = 13 then [jsonBackslashChar, 'r']
  else if c.toNat < 32 then
    [jsonBackslashChar, 'u', '0', '0', hexDigitChar (c.toNat / 16), hexDigitChar (c.toNat % 16)]
  else [c]

def escapeJsonString : List Char → List Char
  | [] => []
  | c :: rest => escapeJsonChar c ++ escapeJsonString rest

/-- Decimal digit characters of a natural number, most significant first
(JavaScript number formatting for non-negative integers). -/
def natToChars (n : Nat) : List Char :=
  if n = 0 then [Char.ofNat 48]
  else ((Nat.digits 10 n).map fun d => Char.ofNat (48 + d)).reverse

/-- JavaScript number formatting for integers. -/
def intToChars (n : Int) : List Char :=
  if n < 0 then minusChar :: natToChars n.natAbs else natToChars n.toNat

mutual

/-- `JSON.stringify` on a JSON value, as a character list. -/
def serializeJson : JsValue → List Char
  | .vNull => ['n', 'u', 'l', 'l']
  | .vBool true => ['t', 'r', 'u', 'e']
  | .vBool false => ['f', 'a', 'l', 's', 'e']
  | .vNum n => intToChars n
  | .vStr s => jsonQuoteChar :: (escapeJsonString s.toList ++ [jsonQuoteChar])
  | .vArr xs => lbracketChar :: (serializeJsonList xs ++ [rbracketChar])
  | .vObj fs => lbraceChar :: (serializeJsonProps fs ++ [rbraceChar])

/-- Comma-separated serialization of array elements. -/
def serializeJsonList : List JsValue → List Char
  | [] => []
  | [v] => serializeJson v
  | v :: w :: rest => serializeJson v ++ commaChar :: serializeJsonList (w :: rest)

/-- Comma-separated serialization of object properties. -/
def serializeJsonProps : List (String × JsValue) → List Char
  | [] => []
  | [(k, v)] =>
    jsonQuoteChar :: (escapeJsonString k.toList ++ jsonQuoteChar :: colonChar :: serializeJson v)
  | (k, v) :: p :: rest =>
    (jsonQuoteChar :: (escapeJsonString k.toList ++ jsonQuoteChar :: colonChar :: serializeJson v))
      ++ commaChar :: serializeJsonProps (p :: rest)

end

/-- `JSON.stringify` as a string-valued function. -/
def jsonStringify (v : JsValue) : String := String.mk (serializeJson v)

def isDigitCh (c : Char) : Bool := 48 ≤ c.toNat && c.toNat ≤ 57

def digitVal (c : Char) : Nat := c.toNat - 48

/-- Greedy decimal digit consumption with an accumulator. -/
def parseDigitsAux (acc : Nat) : List Char → Nat × List Char
  | [] => (acc, [])
  | c :: rest =>
    if isDigitCh c then parseDigitsAux (10 * acc + digitVal c) rest else (acc, c :: rest)

/-- Parse a non-empty run of decimal digits. -/
def parseNat : List Char → Option (Nat × List Char)
  | [] => none
  | c :: rest => if isDigitCh c then some (parseDigitsAux (digitVal c) rest) else none

def hexVal (c : Char) : Option Nat :=
  if 48 ≤ c.toNat ∧ c.toNat ≤ 57 then some (c.toNat - 48)
  else if 97 ≤ c.toNat ∧ c.toNat ≤ 102 then some (c.toNat - 87)
  else if 65 ≤ c.toNat ∧ c.toNat ≤ 70 then some (c.toNat - 55)
  else none

/-- Decode a single-character JSON escape (`\"`, `\\`, `\/`, `\b`, `\t`,
`\n`, `\f`, `\r`). -/
def unescapeChar (c : Char) : Option Char :=
  if c = jsonQuoteChar then some jsonQuoteChar
  else if c = jsonBackslashChar then some jsonBackslashChar
  else if c = '/' then some '/'
  else if c = 'b' then some (Char.ofNat 8)
  else if c = 't' then some (Char.ofNat 9)
  else if c = 'n' then some (Char.ofNat 10)
  else if c = 'f' then some (Char.ofNat 12)
  else if c = 'r' then some (Char.ofNat 13)
  else none

/-- Decode one escape sequence (the part after a backslash), returning the
decoded character and the remaining input. -/
def decodeEscape : List Char → Option (Char × List Char)
  | [] => none
  | e :: rest2 =>
    if e = 'u' then
      match rest2 with
      | h1 :: h2 :: h3 :: h4 :: rest3 =>
        match hexVal h1, hexVal h2, hexVal h3, hexVal h4 with
        | some a, some b, some c4, some d =>
          if ((a * 16 + b) * 16 + c4) * 16 + d < 55296 then
            some (Char.ofNat (((a * 16 + b) * 16 + c4) * 16 + d), rest3)
          else none
        | _, _, _, _ => none
      | _ => none
    else
      match unescapeChar e with
      | some uc => some (uc, rest2)
      | none => none

/-- Parse a JSON string body up to (and consuming) the closing quote; the
fuel bounds the number of decoded characters. -/
def parseStringBody : Nat → List Char → Option (List Char × List Char)
  | _, [] => none
  | 0, _ :: _ => none
  | fuel + 1, c :: rest =>
    if c = jsonQuoteChar then some ([], rest)
    else if c = jsonBackslashChar then
      match decodeEscape rest with
      | some (uc, rest2) =>
        match parseStringBody fuel rest2 with
        | some (s, r) => some (uc :: s, r)
        | none => none
      | none => none
    else
      match parseStringBody fuel rest with
      | some (s, r) => some (c :: s, r)
      | none => none

mutual

/-- Fuelled recursive-descent parser for (whitespace-free, canonical) JSON
text; the fuel bounds the number of value nodes. -/
def parseJsonVal : Nat → List Char → Option (JsValue × List Char)
  | 0, _ => none
  | _ + 1, [] => none
  | fuel + 1, c :: rest =>
    if c = 'n' then
      match rest with
      | 'u' :: 'l' :: 'l' :: r => some (.vNull, r)
      | _ => none
    else if c = 't' then
      match rest with
      | 'r' :: 'u' :: 'e' :: r => some (.vBool true, r)
      | _ => none
    else if c = 'f' then
      match rest with
      | 'a' :: 'l' :: 's' :: 'e' :: r => some (.vBool false, r)
      | _ => none
    else if c = jsonQuoteChar then
      match parseStringBody rest.length rest with
      | some (s, r) => some (.vStr (String.mk s), r)
      | none => none
    else if c = minusChar then
      match parseNat rest with
      | some (m, r) => some (.vNum (-(m : Int)), r)
      | none => none
    else if isDigitCh c then
      match parseNat (c :: rest) with
      | some (m, r) => some (.vNum (m : Int), r)
      | none => none
    else if c = lbracketChar then
      match rest with
      | [] => none
      | d :: r2 =>
        if d = rbracketChar then some (.vArr [], r2)
        else
          match parseArrElems fuel (d :: r2) with
          | some (vs, r) => some (.vArr vs, r)
          | none => none
    else if c = lbraceChar then
      match rest with
      | [] => none
      | d :: r2 =>
        if d = rbraceChar then some (.vObj [], r2)
        else
          match parseObjProps fuel (d :: r2) with
          | some (ps, r) => some (.vObj ps, r)
          | none => none
    else none

/-- Parse `value (, value)* ]` — the non-empty element list of an array. -/
def parseArrElems : Nat → List Char → Option (List JsValue × List Char)
  | 0, _ => none
  | fuel + 1, cs =>
    match parseJsonVal fuel cs with
    | some (v, r) =>
      match r with
      | [] => none
      | d :: r2 =>
        if d = commaChar then
          match parseArrElems fuel r2 with
          | some (vs, r3) => some (v :: vs, r3)
          | none => none
        else if d = rbracketChar then some ([v], r2)
        else none
    | none => none

/-- Parse `"key":value (, "key":value)* \x7d` — the non-empty property list
of an object. -/
def parseObjProps : Nat → List Char → Option (List (String × JsValue) × List Char)
  | 0, _ => none
  | fuel + 1, cs =>
    match cs with
    | [] => none
    | q :: cs2 =>
      if q = jsonQuoteChar then
        match parseStringBody cs2.length cs2 with
        | some (k, r) =>
          match r with
          | [] => none
          | colon :: r2 =>
            if colon = colonChar then
              match parseJsonVal fuel r2 with
              | some (v, r3) =>
                match r3 with
                | [] => none
                | d :: r4 =>
                  if d = commaChar then
                    match parseObjProps fuel r4 with
                    | some (ps, r5) => some ((String.mk k, v) :: ps, r5)
                    | none => none
                  else if d = rbraceChar then some ([(String.mk k, v)], r4)
                  else none
              | none => none
            else none
        | none => none
      else none

end

mutual

/-- Fuel sufficient to parse the serialization of a value. -/
def jsonFuelSize : JsValue → Nat
  | .vArr xs => 1 + jsonFuelSizeList xs
  | .vObj fs => 1 + jsonFuelSizeProps fs
  | _ => 1

def jsonFuelSizeList : List JsValue → Nat
  | [] => 1
  | v :: rest => 1 + jsonFuelSize v + jsonFuelSizeList rest

def jsonFuelSizeProps : List (String × JsValue) → Nat
  | [] => 1
  | p :: rest => 1 + jsonFuelSize p.2 + jsonFuelSizeProps rest

end

/-- UTF-8 encoding of one unicode scalar value (`Buffer.from(s)` byte
layout). -/
def utf8EncodeChar (c : Char) : List Nat :=
  let n := c.toNat
  if n < 128 then [n]
  else if n < 2048 then [192 + n / 64, 128 + n % 64]
  else if n < 65536 then [224 + n / 4096, 128 + (n / 64) % 64, 128 + n % 64]
  else [240 + n / 262144, 128 + (n / 4096) % 64, 128 + (n / 64) % 64, 128 + n % 64]

def utf8Encode : List Char → List Nat
  | [] => []
  | c :: rest => utf8EncodeChar c ++ utf8Encode rest

/-- Decode the leading UTF-8 sequence: the scalar value it encodes and the
remaining bytes. -/
def utf8DecodeOne (b : Nat) (rest : List Nat) : Option (Nat × List Nat) :=
  if b < 128 then some (b, rest)
  else if 192 ≤ b ∧ b < 224 then
    match rest with
    | b2 :: rest2 =>
      if 128 ≤ b2 ∧ b2 < 192 then some ((b - 192) * 64 + (b2 - 128), rest2) else none
    | [] => none
  else if 224 ≤ b ∧ b < 240 then
    match rest with
    | b2 :: b3 :: rest2 =>
      if (128 ≤ b2 ∧ b2 < 192) ∧ (128 ≤ b3 ∧ b3 < 192) then
        some ((b - 224) * 4096 + (b2 - 128) * 64 + (b3 - 128), rest2)
      else none
    | _ => none
  else if 240 ≤ b ∧ b < 248 then
    match rest with
    | b2 :: b3 :: b4 :: rest2 =>
      if (128 ≤ b2 ∧ b2 < 192) ∧ (128 ≤ b3 ∧ b3 < 192) ∧ (128 ≤ b4 ∧ b4 < 192) then
        some ((b - 240) * 262144 + (b2 - 128) * 4096 + (b3 - 128) * 64 + (b4 - 128),
          rest2)
      else none
    | _ => none
  else none

/-- Fuelled UTF-8 decoding loop (the fuel bounds the number of decoded
characters). -/
def utf8DecodeGo : Nat → List Nat → Option (List Char)
  | _, [] => some []
  | 0, _ :: _ => none
  | fuel + 1, b :: rest =>
    match utf8DecodeOne b rest with
    | some (code, rest2) =>
      match utf8DecodeGo fuel rest2 with
      | some cs => some (Char.ofNat code :: cs)
      | none => none
    | none => none

/-- UTF-8 decoding (a byte list never holds fewer bytes than characters, so
the length is enough fuel). -/
def utf8Decode (bs : List Nat) : Option (List Char) := utf8DecodeGo bs.length bs

/-- The base64 alphabet. -/
def base64Char (n : Nat) : Char :=
  if n < 26 then Char.ofNat (65 + n)
  else if n < 52 then Char.ofNat (97 + (n - 26))
  else if n < 62 then Char.ofNat (48 + (n - 52))
  else if n = 62 then Char.ofNat 43
  else Char.ofNat 47

def base64Val (c : Char) : Option Nat :=
  if 65 ≤ c.toNat ∧ c.toNat ≤ 90 then some (c.toNat - 65)
  else if 97 ≤ c.toNat ∧ c.toNat ≤ 122 then some (c.toNat - 97 + 26)
  else if 48 ≤ c.toNat ∧ c.toNat ≤ 57 then some (c.toNat - 48 + 52)
  else if c.toNat = 43 then some 62
  else if c.toNat = 47 then some 63
  else none

/-- Base64 encoding of a byte list (`Buffer.prototype.toString('base64')`):
3-byte groups become 4 alphabet characters, with `=` padding for a 1- or
2-byte remainder. -/
def base64Encode : List Nat → List Char
  | [] => []
  | [b1] => [base64Char (b1 / 4), base64Char ((b1 % 4) * 16), equalsChar, equalsChar]
  | [b1, b2] =>
    [base64Char (b1 / 4), base64Char ((b1 % 4) * 16 + b2 / 16),
     base64Char ((b2 % 16) * 4), equalsChar]
  | b1 :: b2 :: b3 :: b4 :: rest =>
    base64Char (b1 / 4) :: base64Char ((b1 % 4) * 16 + b2 / 16) ::
      base64Char ((b2 % 16) * 4 + b3 / 64) :: base64Char (b3 % 64) ::
      base64Encode (b4 :: rest)
  | [b1, b2, b3] =>
    [base64Char (b1 / 4), base64Char ((b1 % 4) * 16 + b2 / 16),
     base64Char ((b2 % 16) * 4 + b3 / 64), base64Char (b3 % 64)]

/-- Base64 decoding, the inverse of `base64Encode`. -/
def base64Decode : List Char → Option (List Nat)
  | [] => some []
  | c1 :: c2 :: c3 :: c4 :: rest =>
    (match base64Val c1, base64Val c2 with
     | some s1, some s2 =>
       if c3 = equalsChar then
         if c4 = equalsChar ∧ rest = [] then some [s1 * 4 + s2 / 16] else none
       else
         match base64Val c3 with
         | some s3 =>
           if c4 = equalsChar then
             if rest = [] then some [s1 * 4 + s2 / 16, (s2 % 16) * 16 + s3 / 4] else none
           else
             match base64Val c4, base64Decode rest with
             | some s4, some bs =>
               some ((s1 * 4 + s2 / 16) :: ((s2 % 16) * 16 + s3 / 4) ::
                 ((s3 % 4) * 64 + s4) :: bs)
             | _, _ => none
         | none => none
     | _, _ => none)
  | _ => none

/-- `Api_Response.encryptData`: base64 of the UTF-8 bytes of the JSON
serialization (`Buffer.from(JSON.stringify(data)).toString('base64')`). -/
def encryptDataString (data : JsValue) : String :=
  String.mk (base64Encode (utf8Encode (serializeJson data)))

/-! ### Api_Response: status-code table, handler registry, formatter -/

/-- The `statusCodes` table (`data/StatusCode.js`), as
`statusCodes[type]?.[functionType]`. -/
def statusCodesTable (ty verb : String) : Option Nat :=
  if ty = "ok" then
    if verb = "get" then some 200
    else if verb = "post" then some 201
    else if verb = "put" then some 200
    else if verb = "patch" then some 200
    else if verb = "delete" then some 204
    else none
  else if ty = "error" then
    if verb = "get" then some 404
    else if verb = "post" then some 400
    else if verb = "put" then some 400
    else if verb = "patch" then some 400
    else if verb = "delete" then some 404
    else none
  else if ty = "info" then
    if verb = "get" then some 200
    else if verb = "post" then some 202
    else if verb = "put" then some 202
    else if verb = "patch" then some 202
    else if verb = "delete" then some 202
    else none
  else if ty = "warning" then
    if verb = "get" then some 200
    else if verb = "post" then some 200
    else if verb = "put" then some 200
    else if verb = "patch" then some 200
    else if verb = "delete" then some 200
    else none
  else none

/-- `getDefaultStatusCode`: table value with a JS `|| 200` fallback. -/
def getDefaultStatusCode (ty verb : String) : Nat :=
  match statusCodesTable ty verb with
  | some n => if n = 0 then 200 else n
  | none => 200

/-- The `messages` table (`data/message.js`), as
`messages[type]?.[functionType]`. -/
def messagesTable (ty verb : String) : Option String :=
  if ty = "ok" then
    if verb = "get" then some "Data retrieved successfully"
    else if verb = "post" then some "Resource created successfully"
    else if verb = "put" then some "Resource updated successfully"
    else if verb = "patch" then some "Resource partially updated successfully"
    else if verb = "delete" then some "Resource deleted successfully"
    else none
  else if ty = "error" then
    if verb = "get" then some "Failed to retrieve data"
    else if verb = "post" then some "Failed to create resource"
    else if verb = "put" then some "Failed to update resource"
    else if verb = "patch" then some "Failed to partially update resource"
    else if verb = "delete" then some "Failed to delete resource"
    else none
  else if ty = "info" then
    if verb = "get" then some "Information retrieved"
    else if verb = "post" then some "Information processed"
    else if verb = "put" then some "Information updated"
    else if verb = "patch" then some "Information modified"
    else if verb = "delete" then some "Information removed"
    else none
  else if ty = "warning" then
    if verb = "get" then some "Data retrieved with warnings"
    else if verb = "post" then some "Resource created with warnings"
    else if verb = "put" then some "Resource updated with warnings"
    else if verb = "patch" then some "Resource partially updated with warnings"
    else if verb = "delete" then some "Resource deleted with warnings"
    else none
  else none

/-- `getDefaultMessage`: table value with the JS fallback string. -/
def getDefaultMessage (ty verb : String) : String :=
  match messagesTable ty verb with
  | some m => if m = "" then "Operation completed" else m
  | none => "Operation completed"

/-- The verbs each handler module exports.  The `error` and `info` modules in
the source export exactly `get`, `post`, `put`, `patch`, `delete`.  Modelled
from the spec: the `ok` and `warning` handler modules are not present under
the source tree; per the response-formatter table of the spec they cover the
same five verbs. -/
def handlerVerbs : List String := ["get", "post", "put", "patch", "delete"]

/-- `getHandler(type, functionType)` existence: a defined handler module for
the type, holding a handler for the verb. -/
def handlerExists (ty verb : String) : Bool :=
  (ty = "error" || ty = "ok" || ty = "info" || ty = "warning") && handlerVerbs.contains verb

/-- The configuration an `Api_Response` instance carries. -/
structure ApiConfig where
  isDevMode : Bool
  version : String
  encryptionValue : Option String
  responseId : String
  poweredBy : String

/-- Truthiness of `this.encryptionValue` (a `null` or empty-string key is no
key). -/
def encConfigured (cfg : ApiConfig) : Bool :=
  match cfg.encryptionValue with
  | some s => s ≠ ""
  | none => false

/-- The `{body, headers, statusCode}` envelope returned by the formatter. -/
structure FormattedResponse where
  body : JsValue
  headers : List (String × String)
  statusCode : Nat

/-- `headers[key] = value`. -/
def setHeader (hs : List (String × String)) (key value : String) :
    List (String × String) :=
  if hs.any (fun p => p.1 = key) then
    hs.map (fun p => if p.1 = key then (key, value) else p)
  else hs ++ [(key, value)]

/-- The header block `match` constructs before the encryption branch. -/
def apiHeaders (cfg : ApiConfig) (ty verb : String) (responseId : String)
    (responseTime : Nat) (timestamp : String) : List (String × String) :=
  [("X-Response-Type", ty),
   ("X-Response-Method", verb.toUpper),
   ("X-Response-ID", responseId),
   ("X-Response-Time", toString responseTime ++ "ms"),
   ("X-API-Version", cfg.version),
   ("X-Environment", if cfg.isDevMode then "development" else "production"),
   ("X-Encrypted", if encConfigured cfg then "true" else "false"),
   ("X-Timestamp", timestamp),
   ("x-powered-by", cfg.poweredBy)]

/-- `createErrorResponse` (the handler-not-found path). -/
def createErrorResponse (cfg : ApiConfig) (errorCode message : String)
    (statusCode : Nat) (responseTime : Nat) (responseId : String)
    (timestamp : String) : FormattedResponse :=
  { body := JsValue.vObj
      [("error", JsValue.vBool true),
       ("message", JsValue.vStr message),
       ("code", JsValue.vStr errorCode)],
    headers :=
      [("X-Response-Type", "error"),
       ("X-Response-Method", "ERROR"),
       ("X-Response-ID", responseId),
       ("X-Response-Time", toString responseTime ++ "ms"),
       ("X-API-Version", cfg.version),
       ("X-Environment", if cfg.isDevMode then "development" else "production"),
       ("X-Error-Code", errorCode),
       ("X-Timestamp", timestamp)],
    statusCode := statusCode }

/-- `Api_Response.match(type, functionType, data, message, statusCode,
responseId)`.  The side-effecting inputs (elapsed time, wall-clock timestamp)
are passed in explicitly; `message = ""` and `statusCode = none` are the JS
defaults. -/
def apiMatch (cfg : ApiConfig) (ty verb : String) (data : Option JsValue)
    (message : String) (statusCode : Option Nat) (responseId : Option String)
    (responseTime : Nat) (timestamp : String) : FormattedResponse :=
  let currentResponseId :=
    match responseId with
    | some r => if r = "" then cfg.responseId else r
    | none => cfg.responseId
  let currentStatusCode :=
    match statusCode with
    | some n => if n = 0 then getDefaultStatusCode ty verb else n
    | none => getDefaultStatusCode ty verb
  let currentMessage := if message = "" then getDefaultMessage ty verb else message
  if !handlerExists ty verb then
    createErrorResponse cfg "HANDLER_NOT_FOUND"
      ("No handler found for " ++ ty ++ "/" ++ verb) 500 responseTime
      currentResponseId timestamp
  else
    let headers0 := apiHeaders cfg ty verb currentResponseId responseTime timestamp
    let body0 := JsValue.vObj
      (spreadInto [("message", JsValue.vStr currentMessage)]
        (match data with
         | some d => d.jsEntries
         | none => []))
    if encConfigured cfg && (match data with | some d => d.jsTruthy | none => false) then
      { body := JsValue.vStr (encryptDataString (data.getD JsValue.vNull)),
        headers := setHeader headers0 "X-Encrypted" "true",
        statusCode := currentStatusCode }
    else
      { body := body0, headers := headers0, statusCode := currentStatusCode }

/-- `Api_Response.success`. -/
def apiSuccess (cfg : ApiConfig) (verb : String) (data : Option JsValue)
    (message : String) (statusCode : Option Nat) (responseTime : Nat)
    (timestamp : String) : FormattedResponse :=
  apiMatch cfg "ok" verb data message statusCode none responseTime timestamp

/-- `Api_Response.error`. -/
def apiError (cfg : ApiConfig) (verb : String) (data : Option JsValue)
    (message : String) (statusCode : Option Nat) (responseTime : Nat)
    (timestamp : String) : FormattedResponse :=
  apiMatch cfg "error" verb data message statusCode none responseTime timestamp

/-! ### PrismaCrudRouter: error mapping, where-filtering, route handlers -/

/-- Result of a user-supplied validation hook. -/
structure ValidationResult where
  isValid : Bool
  message : String

/-- The errors a route handler can throw before or at the persistence call. -/
inductive ReqError where
  | invalidData
  | validationFailed (msg : String)
  | constraintViolations (vs : List Violation)
  | persistenceError (msg : String)

/-- The `error.message` text of a thrown request error (violation lists are
joined in the source; the exact join text is irrelevant to the claims). -/
def reqErrorMessage : ReqError → String
  | .invalidData => "Invalid data provided"
  | .validationFailed m => m
  | .constraintViolations _ => "Constraint violations"
  | .persistenceError m => m

/-- `PrismaCrudRouter.handleError` for a plain thrown `Error` (no Prisma
error code): development mode surfaces the thrown message, production the
`ErrorCode.default` message.  `PrismaError.js` is not present under the
source tree, so its `default` entry is abstracted as the two
`errorCodeDefault` parameters. -/
def handleError (cfg : ApiConfig) (verb : String) (thrownMessage : String)
    (errorCodeDefaultMessage : String) (errorCodeDefaultStatus : Nat)
    (responseTime : Nat) (timestamp : String) : FormattedResponse :=
  let errorMessage := if cfg.isDevMode then thrownMessage else errorCodeDefaultMessage
  apiError cfg verb none errorMessage (some errorCodeDefaultStatus) responseTime timestamp

/-- `['AND', 'OR', 'NOT']`. -/
def logicalOps : List String := ["AND", "OR", "NOT"]

mutual

/-- `filterWhereObject(where, validFields)`: recursively keeps only logical
operators and valid fields.  Falsy and non-object inputs are returned
unchanged. -/
def filterWhereObject : JsValue → List String → JsValue
  | .vObj fs, vf => .vObj (filterWhereProps fs vf)
  | .vArr xs, vf => .vArr (filterWhereArr xs 0 vf)
  | w, _ => w

/-- The entry loop of `filterWhereObject` over an object's properties. -/
def filterWhereProps : List (String × JsValue) → List String → List (String × JsValue)
  | [], _ => []
  | (key, value) :: rest, vf =>
    if logicalOps.contains key then
      match value with
      | .vArr xs =>
        (key, .vArr ((filterWhereList xs vf).filter
          fun v => v.jsTruthy && !v.jsKeys.isEmpty)) :: filterWhereProps rest vf
      | .vObj fs =>
        if (filterWhereObject (.vObj fs) vf).jsTruthy &&
            !(filterWhereObject (.vObj fs) vf).jsKeys.isEmpty then
          (key, filterWhereObject (.vObj fs) vf) :: filterWhereProps rest vf
        else filterWhereProps rest vf
      | _ => filterWhereProps rest vf
    else if vf.contains key then
      if value.typeofIsObject && !value.isNull && !value.isArr then
        (key, filterWhereObject value vf) :: filterWhereProps rest vf
      else (key, value) :: filterWhereProps rest vf
    else filterWhereProps rest vf

/-- `value.map(v => filterWhereObject(v, validFields))` under a logical key. -/
def filterWhereList : List JsValue → List String → List JsValue
  | [], _ => []
  | v :: rest, vf => filterWhereObject v vf :: filterWhereList rest vf

/-- The entry loop over an array input (entries are keyed by decimal index,
which is never a logical operator). -/
def filterWhereArr : List JsValue → Nat → List String → List JsValue
  | [], _, _ => []
  | x :: rest, i, vf =>
    if vf.contains (toString i) then
      (if x.typeofIsObject && !x.isNull && !x.isArr then filterWhereObject x vf else x) ::
        filterWhereArr rest (i + 1) vf
    else filterWhereArr rest (i + 1) vf

end

/-- Line 341 of the list handler:
`structure && structure.fields && structure.fields.length > 0 ?
structure.fields : []` (a `none` argument is a failed analysis). -/
def listValidFields (structureFields : Option (List String)) : List String :=
  match structureFields with
  | some fs => if fs.length > 0 then fs else []
  | none => []

/-- The global+route exclusion applied to the valid fields (`Set` union is
modelled by concatenation, which has the same membership). -/
def listFilteredFields (validFields globalExclude routeExclude : List String) :
    List String :=
  validFields.filter fun f => !(globalExclude ++ routeExclude).contains f

/-- `filterWhereObject(filter, filteredFields)` as the list handler issues
it. -/
def listFilteredFilter (structureFields : Option (List String))
    (globalExclude routeExclude : List String) (filter : JsValue) : JsValue :=
  filterWhereObject filter
    (listFilteredFields (listValidFields structureFields) globalExclude routeExclude)

/-- Step 5 of the list handler on a truthy parsed `select`: arrays are
filtered to valid string fields and converted to a Prisma select object,
objects are filtered by key, anything else passes through. -/
def processSelect (selectQ : JsValue) (filteredFields : List String) : JsValue :=
  match selectQ with
  | .vArr xs =>
    .vObj ((xs.filter fun x =>
        match x with
        | .vStr f => filteredFields.contains f
        | _ => false).filterMap fun x =>
        match x with
        | .vStr f => some (f, JsValue.vBool true)
        | _ => none)
  | .vObj fs => .vObj (fs.filter fun p => filteredFields.contains p.1)
  | v => v

/-- Step 7 of the list handler: the include object, only populated when no
select query parameter is present. -/
def buildIncludeObject (hasSelect includeRelations : Bool)
    (excludeRelations : List String) (mstruct : Option ModelStructure)
    (includeQ : Option JsValue) (filteredFields : List String) :
    List (String × JsValue) :=
  if hasSelect then []
  else
    let base :=
      match mstruct with
      | some st =>
        if includeRelations && st.hasRelations then
          st.foreignKeys.foldl
            (fun acc fk =>
              if !excludeRelations.contains fk.field then
                setProp acc fk.field (JsValue.vBool true)
              else acc) []
        else []
      | none => []
    match includeQ with
    | some inc =>
      if inc.jsTruthy then
        inc.jsEntries.foldl
          (fun acc p =>
            if filteredFields.contains p.1 ||
                (match mstruct with
                 | some st => st.foreignKeys.any fun fk => fk.field = p.1
                 | none => false) then
              setProp acc p.1 p.2
            else acc) base
      else base
    | none => base

/-- The select/include part of the `findMany` argument object. -/
structure FindManyArgs where
  select : Option JsValue
  includeArg : Option (List (String × JsValue))

/-- The final select pruning (lines 414-424): keys outside the model's valid
fields are deleted, and an emptied select is dropped entirely. -/
def pruneSelect (sel : JsValue) (validFields : List String) : Option JsValue :=
  let sel2 :=
    match sel with
    | .vObj fs => JsValue.vObj (fs.filter fun p => validFields.contains p.1)
    | v => v
  if sel2.jsKeys.isEmpty then none else some sel2

/-- The select/include composition of the list handler (steps 5 and 7, the
`isAdvanced` dispatch, and the final select pruning), producing the select
and include arguments of the issued `findMany` call. -/
def composeListQueryArgs (selectQ includeQ : Option JsValue)
    (orderByPresent skipPresent takePresent : Bool)
    (includeRelations : Bool) (excludeRelations : List String)
    (mstruct : Option ModelStructure)
    (filteredFields validFields : List String) : FindManyArgs :=
  let hasSelect :=
    match selectQ with
    | some v => v.jsTruthy
    | none => false
  let select1 :=
    if hasSelect then processSelect (selectQ.getD JsValue.vNull) filteredFields
    else JsValue.vObj (filteredFields.map fun f => (f, JsValue.vBool true))
  let includeObject :=
    buildIncludeObject hasSelect includeRelations excludeRelations mstruct includeQ
      filteredFields
  let isAdvanced := select1.jsTruthy || orderByPresent ||
    (match includeQ with
     | some v => v.jsTruthy
     | none => false) || skipPresent || takePresent
  if isAdvanced then
    let args0 : FindManyArgs :=
      if select1.jsTruthy then { select := some select1, includeArg := none }
      else if includeObject.length > 0 then { select := none, includeArg := some includeObject }
      else { select := none, includeArg := none }
    match args0.select with
    | some sel => { args0 with select := pruneSelect sel validFields }
    | none => args0
  else
    { select := none,
      includeArg := if includeObject.length > 0 then some includeObject else none }

/-- Per-route hooks (`beforeActions`, `afterActions`, `validation`), each
optional; a hook returning `none` models the JS hook returning `undefined`
(the original value is kept). -/
structure RouteHooks where
  beforeCreate : Option (JsValue → Option JsValue)
  afterCreate : Option (JsValue → Option JsValue)
  validateCreate : Option (JsValue → ValidationResult)
  beforeUpdate : Option (Int → JsValue → Option JsValue)
  afterUpdate : Option (JsValue → Option JsValue)
  validateUpdate : Option (JsValue → ValidationResult)
  beforeDestroy : Option (Int → Option JsValue)
  afterDestroy : Option (JsValue → Option JsValue)

/-- Apply an optional rewriting hook (`undefined` keeps the input). -/
def applyHook (hook : Option (JsValue → Option JsValue)) (data : JsValue) : JsValue :=
  match hook with
  | none => data
  | some h =>
    match h data with
    | none => data
    | some d => d

/-- `{ create: items }`. -/
def wrapNestedCreate (items : JsValue) : JsValue := JsValue.vObj [("create", items)]

/-- The nested-write data object built by `createWithAutoDetectedRelations` /
`updateWithAutoDetectedRelations`: main data plus each detected relation
wrapped in nested-create syntax. -/
def nestedCreateData (data : List (String × JsValue)) : List (String × JsValue) :=
  let parts := processNestedData true data
  let afterSingle :=
    parts.2.1.foldl (fun acc p => setProp acc p.1 (wrapNestedCreate p.2)) parts.1
  parts.2.2.foldl (fun acc p => setProp acc p.1 (wrapNestedCreate p.2)) afterSingle

/-- `createWithAutoDetectedRelations(data)`: one `model.create` call either
way — plain main data when no relation was detected, the nested-write object
otherwise. -/
def createWithAutoDetectedRelations
    (createFn : List (String × JsValue) → Except String JsValue)
    (data : List (String × JsValue)) : Except String JsValue :=
  let parts := processNestedData true data
  if parts.2.1.length = 0 && parts.2.2.length = 0 then createFn parts.1
  else createFn (nestedCreateData data)

/-- `updateWithAutoDetectedRelations(id, data)` (the id is taken already
numerically coerced, as `convertId`/the inline coercion produce it). -/
def updateWithAutoDetectedRelations
    (updateFn : Int → List (String × JsValue) → Except String JsValue)
    (id : Int) (data : List (String × JsValue)) : Except String JsValue :=
  let parts := processNestedData true data
  if parts.2.1.length = 0 && parts.2.2.length = 0 then updateFn id parts.1
  else updateFn id (nestedCreateData data)

/-- Outcome of the mutation part of a route handler: the thrown error or the
persisted row, together with the number of persistence write calls made. -/
structure MutationOutcome where
  result : Except ReqError JsValue
  persistenceCalls : Nat

/-- The body of the POST handler's `try` block, up to the created row:
body-shape guard, `beforeActions.create`, `validation.create`, the constraint
check, then the single `model.create` (direct or relation-aware). -/
def postHandler (enableCC autoDetect : Bool) (hooks : RouteHooks)
    (cenv : ConstraintEnv) (mstruct : Option ModelStructure)
    (createFn : List (String × JsValue) → Except String JsValue)
    (body : JsValue) : MutationOutcome :=
  if !body.jsTruthy || !body.typeofIsObject then
    { result := .error .invalidData, persistenceCalls := 0 }
  else
    let data := applyHook hooks.beforeCreate body
    let validationFailure :=
      match hooks.validateCreate with
      | none => none
      | some vf =>
        let r := vf data
        if r.isValid then none
        else some (if r.message = "" then "Validation failed" else r.message)
    match validationFailure with
    | some m => { result := .error (.validationFailed m), persistenceCalls := 0 }
    | none =>
      let ccheck := checkConstraints cenv "create" data.jsEntries mstruct
      if enableCC && !ccheck.isValid then
        { result := .error (.constraintViolations ccheck.violations), persistenceCalls := 0 }
      else
        let created :=
          if autoDetect then createWithAutoDetectedRelations createFn data.jsEntries
          else createFn data.jsEntries
        match created with
        | .ok row => { result := .ok row, persistenceCalls := 1 }
        | .error m => { result := .error (.persistenceError m), persistenceCalls := 1 }

/-- The POST route: handler body then response formatting (success envelope
on `ok`, `handleError` envelope on a thrown error). -/
def postRoute (cfg : ApiConfig) (enableCC autoDetect : Bool) (hooks : RouteHooks)
    (cenv : ConstraintEnv) (mstruct : Option ModelStructure)
    (createFn : List (String × JsValue) → Except String JsValue) (body : JsValue)
    (errorCodeDefaultMessage : String) (errorCodeDefaultStatus : Nat)
    (responseTime : Nat) (timestamp : String) : FormattedResponse × Nat :=
  let o := postHandler enableCC autoDetect hooks cenv mstruct createFn body
  match o.result with
  | .ok row =>
    (apiSuccess cfg "post" (some (applyHook hooks.afterCreate row)) "" none
      responseTime timestamp, o.persistenceCalls)
  | .error e =>
    (handleError cfg "post" (reqErrorMessage e) errorCodeDefaultMessage
      errorCodeDefaultStatus responseTime timestamp, o.persistenceCalls)

/-- The body of the PUT handler's `try` block: body-shape guard,
`beforeActions.update`, `validation.update`, the constraint check on
`'update'`, the advisory cascade pass, then the single `model.update`. -/
def putHandler (enableCC enableCascade autoDetect : Bool) (hooks : RouteHooks)
    (cenv : ConstraintEnv) (casc : CascadeEnv) (mstruct : Option ModelStructure)
    (updateFn : Int → List (String × JsValue) → Except String JsValue)
    (id : Int) (body : JsValue) : MutationOutcome :=
  if !body.jsTruthy || !body.typeofIsObject then
    { result := .error .invalidData, persistenceCalls := 0 }
  else
    let data :=
      match hooks.beforeUpdate with
      | none => body
      | some h =>
        match h id body with
        | none => body
        | some d => d
    let validationFailure :=
      match hooks.validateUpdate with
      | none => none
      | some vf =>
        let r := vf data
        if r.isValid then none
        else some (if r.message = "" then "Validation failed" else r.message)
    match validationFailure with
    | some m => { result := .error (.validationFailed m), persistenceCalls := 0 }
    | none =>
      let ccheck := checkConstraints cenv "update" data.jsEntries mstruct
      if enableCC && !ccheck.isValid then
        { result := .error (.constraintViolations ccheck.violations), persistenceCalls := 0 }
      else
        let _cascade :=
          if enableCascade then
            handleCascadeOperations casc "update" data.jsEntries mstruct id
          else (true, [])
        let updated :=
          if autoDetect then updateWithAutoDetectedRelations updateFn id data.jsEntries
          else updateFn id data.jsEntries
        match updated with
        | .ok row => { result := .ok row, persistenceCalls := 1 }
        | .error m => { result := .error (.persistenceError m), persistenceCalls := 1 }

/-- The PUT route: handler body then response formatting. -/
def putRoute (cfg : ApiConfig) (enableCC enableCascade autoDetect : Bool)
    (hooks : RouteHooks) (cenv : ConstraintEnv) (casc : CascadeEnv)
    (mstruct : Option ModelStructure)
    (updateFn : Int → List (String × JsValue) → Except String JsValue)
    (id : Int) (body : JsValue)
    (errorCodeDefaultMessage : String) (errorCodeDefaultStatus : Nat)
    (responseTime : Nat) (timestamp : String) : FormattedResponse × Nat :=
  let o := putHandler enableCC enableCascade autoDetect hooks cenv casc mstruct
    updateFn id body
  match o.result with
  | .ok row =>
    (apiSuccess cfg "put" (some (applyHook hooks.afterUpdate row)) "" none
      responseTime timestamp, o.persistenceCalls)
  | .error e =>
    (handleError cfg "put" (reqErrorMessage e) errorCodeDefaultMessage
      errorCodeDefaultStatus responseTime timestamp, o.persistenceCalls)

/-- The `if (!deleted)` branch of the DELETE handler: advisory cascade pass
then the primary `model.delete`, followed by `afterActions.destroy` and
response formatting. -/
def deleteRoutePrimary (cfg : ApiConfig) (enableCascade : Bool) (hooks : RouteHooks)
    (casc : CascadeEnv) (mstruct : Option ModelStructure)
    (primaryDelete : Except String JsValue) (id : Int)
    (errorCodeDefaultMessage : String) (errorCodeDefaultStatus : Nat)
    (responseTime : Nat) (timestamp : String) : FormattedResponse × Bool :=
  let _cascade :=
    if enableCascade then handleCascadeOperations casc "delete" [] mstruct id
    else (true, [])
  match primaryDelete with
  | .ok row =>
    (apiSuccess cfg "delete" (some (applyHook hooks.afterDestroy row)) "" none
      responseTime timestamp, true)
  | .error e =>
    (handleError cfg "delete" e errorCodeDefaultMessage errorCodeDefaultStatus
      responseTime timestamp, true)

/-- The DELETE route: optional `beforeActions.destroy` short-circuit,
otherwise the advisory cascade pass (its success flag only feeds a console
warning) followed by the primary `model.delete`; then `afterActions.destroy`
and response formatting.  The returned flag records whether the primary
delete was executed. -/
def deleteRoute (cfg : ApiConfig) (enableCascade : Bool) (hooks : RouteHooks)
    (casc : CascadeEnv) (mstruct : Option ModelStructure)
    (primaryDelete : Except String JsValue) (id : Int)
    (errorCodeDefaultMessage : String) (errorCodeDefaultStatus : Nat)
    (responseTime : Nat) (timestamp : String) : FormattedResponse × Bool :=
  let pre :=
    match hooks.beforeDestroy with
    | some h => h id
    | none => none
  match pre with
  | some row =>
    if row.jsTruthy then
      (apiSuccess cfg "delete" (some (applyHook hooks.afterDestroy row)) "" none
        responseTime timestamp, false)
    else
      deleteRoutePrimary cfg enableCascade hooks casc mstruct primaryDelete id
        errorCodeDefaultMessage errorCodeDefaultStatus responseTime timestamp
  | none =>
    deleteRoutePrimary cfg enableCascade hooks casc mstruct primaryDelete id
      errorCodeDefaultMessage errorCodeDefaultStatus responseTime timestamp

/-- A continuation after a serialized JSON value that cannot extend a number
literal (empty, or starting with a non-digit). -/
def goodRest : List Char → Prop
  | [] => True
  | c :: _ => isDigitCh c = false

/-! ## Theorems -/

theorem isArr_eq_true_iff (v : JsValue) : v.isArr = true ↔ ∃ xs, v = JsValue.vArr xs := by
  cases v <;> simp [JsValue.isArr]

theorem isObj_eq_true_iff (v : JsValue) : v.isObj = true ↔ ∃ fs, v = JsValue.vObj fs := by
  cases v <;> simp [JsValue.isObj]

/-- The classification loop is extensionally a pair of filters over the entry
list: plain objects that pass the skip guard land in the single map, arrays in
the bulk map, in payload order. -/
theorem detectRelationTypesGo_eq_filter (data : List (String × JsValue)) :
    detectRelationTypesGo data =
      (data.filter (fun p => !detectSkips p.1 p.2 && p.2.isObj),
       data.filter (fun p => !detectSkips p.1 p.2 && p.2.isArr)) := by
  induction data with
  | nil => rfl
  | cons hd tl ih =>
    obtain ⟨key, value⟩ := hd
    simp only [detectRelationTypesGo, ih, List.filter_cons]
    by_cases h : detectSkips key value
    · simp [h]
    · cases value <;> simp_all [JsValue.isArr, JsValue.isObj, detectSkips, JsValue.typeofIsObject,
        JsValue.isNull]

theorem mem_detect_single (data : List (String × JsValue)) (k : String) (v : JsValue) :
    (k, v) ∈ (detectRelationTypes true data).1 ↔
      (k, v) ∈ data ∧ detectSkips k v = false ∧ v.isObj = true := by
  simp [detectRelationTypes, detectRelationTypesGo_eq_filter, List.mem_filter]

theorem mem_detect_bulk (data : List (String × JsValue)) (k : String) (v : JsValue) :
    (k, v) ∈ (detectRelationTypes true data).2 ↔
      (k, v) ∈ data ∧ detectSkips k v = false ∧ v.isArr = true := by
  simp [detectRelationTypes, detectRelationTypesGo_eq_filter, List.mem_filter]

/-- In a JS object (no duplicate keys) the key determines the value. -/
theorem nodup_keys_val_unique {data : List (String × JsValue)}
    (hnd : (data.map Prod.fst).Nodup) {k : String} {v v' : JsValue}
    (h1 : (k, v) ∈ data) (h2 : (k, v') ∈ data) : v = v' := by
  induction data with
  | nil => cases h1
  | cons hd tl ih =>
    rcases List.mem_cons.mp h1 with h1h | h1t <;> rcases List.mem_cons.mp h2 with h2h | h2t
    · rw [← h1h] at h2h; exact (Prod.mk.injEq _ _ _ _ ▸ h2h.symm).2
    · exfalso
      have : k ∈ tl.map Prod.fst := List.mem_map.mpr ⟨(k, v'), h2t, rfl⟩
      rw [← h1h] at hnd
      exact (List.nodup_cons.mp hnd).1 this
    · exfalso
      have : k ∈ tl.map Prod.fst := List.mem_map.mpr ⟨(k, v), h1t, rfl⟩
      rw [← h2h] at hnd
      exact (List.nodup_cons.mp hnd).1 this
    · exact ih (List.nodup_cons.mp (by simpa using hnd)).2 h1t h2t

theorem mem_keys_detect_single (data : List (String × JsValue)) (k : String) :
    k ∈ (detectRelationTypes true data).1.map Prod.fst ↔
      ∃ v, (k, v) ∈ data ∧ detectSkips k v = false ∧ v.isObj = true := by
  constructor
  · intro h
    obtain ⟨⟨k', v⟩, hm, hk⟩ := List.mem_map.mp h
    cases hk
    exact ⟨v, (mem_detect_single data k' v).mp hm⟩
  · rintro ⟨v, hv⟩
    exact List.mem_map.mpr ⟨(k, v), (mem_detect_single data k v).mpr hv, rfl⟩

theorem mem_keys_detect_bulk (data : List (String × JsValue)) (k : String) :
    k ∈ (detectRelationTypes true data).2.map Prod.fst ↔
      ∃ v, (k, v) ∈ data ∧ detectSkips k v = false ∧ v.isArr = true := by
  constructor
  · intro h
    obtain ⟨⟨k', v⟩, hm, hk⟩ := List.mem_map.mp h
    cases hk
    exact ⟨v, (mem_detect_bulk data k' v).mp hm⟩
  · rintro ⟨v, hv⟩
    exact List.mem_map.mpr ⟨(k, v), (mem_detect_bulk data k v).mpr hv, rfl⟩

theorem mem_keys_mainData (autoDetect : Bool) (data : List (String × JsValue)) (k : String) :
    k ∈ (processNestedData autoDetect data).1.map Prod.fst ↔
      ∃ v, (k, v) ∈ data ∧
        k ∉ (detectRelationTypes autoDetect data).1.map Prod.fst ∧
        k ∉ (detectRelationTypes autoDetect data).2.map Prod.fst := by
  simp only [processNestedData]
  rw [List.mem_map]
  constructor
  · rintro ⟨⟨k', v⟩, hm, rfl⟩
    have hf := List.mem_filter.mp hm
    have h2 := hf.2
    simp only [Bool.and_eq_true, Bool.not_eq_true', List.any_eq_false,
      decide_eq_false_iff_not] at h2
    refine ⟨v, hf.1, ?_, ?_⟩
    · rw [List.mem_map]
      rintro ⟨⟨k2, v2⟩, hm2, hk2⟩
      exact h2.1 (k2, v2) hm2 (by simpa using hk2)
    · rw [List.mem_map]
      rintro ⟨⟨k2, v2⟩, hm2, hk2⟩
      exact h2.2 (k2, v2) hm2 (by simpa using hk2)
  · rintro ⟨v, hv, hns, hnb⟩
    refine ⟨(k, v), List.mem_filter.mpr ⟨hv, ?_⟩, rfl⟩
    simp only [Bool.and_eq_true, Bool.not_eq_true', List.any_eq_false,
      decide_eq_false_iff_not]
    constructor
    · rintro ⟨k2, v2⟩ hm2 hk2
      exact hns (List.mem_map.mpr ⟨(k2, v2), hm2, of_decide_eq_true hk2⟩)
    · rintro ⟨k2, v2⟩ hm2 hk2
      exact hnb (List.mem_map.mpr ⟨(k2, v2), hm2, of_decide_eq_true hk2⟩)



/-- C1: for every request payload `d` (a JSON object, so with distinct
top-level keys), `processNestedData` partitions the keys of `d` disjointly:
an array-valued key outside the `id`/`createdAt`/`updatedAt`/`uploadedFiles`
exclusion set goes to `bulkRelations` only; a (non-null, non-array)
object-valued key outside the exclusion set goes to `singleRelations` only;
every other key stays in `mainData` only; and the union of the three key sets
is exactly the key set of `d`. -/
theorem C1_relation_detector_partitions (data : List (String × JsValue))
    (hnd : (data.map Prod.fst).Nodup) :
    (∀ k v, (k, v) ∈ data →
      (((∃ xs, v = JsValue.vArr xs) ∧ k ∉ relationExcludedKeys) →
        (k ∈ (processNestedData true data).2.2.map Prod.fst ∧
         k ∉ (processNestedData true data).2.1.map Prod.fst ∧
         k ∉ (processNestedData true data).1.map Prod.fst)) ∧
      (((∃ fs, v = JsValue.vObj fs) ∧ k ∉ relationExcludedKeys) →
        (k ∈ (processNestedData true data).2.1.map Prod.fst ∧
         k ∉ (processNestedData true data).2.2.map Prod.fst ∧
         k ∉ (processNestedData true data).1.map Prod.fst)) ∧
      (((¬∃ xs, v = JsValue.vArr xs) ∧ (¬∃ fs, v = JsValue.vObj fs) ∨
          k ∈ relationExcludedKeys) →
        (k ∈ (processNestedData true data).1.map Prod.fst ∧
         k ∉ (processNestedData true data).2.1.map Prod.fst ∧
         k ∉ (processNestedData true data).2.2.map Prod.fst))) ∧
    (∀ k, k ∈ data.map Prod.fst ↔
      (k ∈ (processNestedData true data).1.map Prod.fst ∨
       k ∈ (processNestedData true data).2.1.map Prod.fst ∨
       k ∈ (processNestedData true data).2.2.map Prod.fst)) ∧
    (∀ k,
      ¬(k ∈ (processNestedData true data).1.map Prod.fst ∧
        k ∈ (processNestedData true data).2.1.map Prod.fst) ∧
      ¬(k ∈ (processNestedData true data).1.map Prod.fst ∧
        k ∈ (processNestedData true data).2.2.map Prod.fst) ∧
      ¬(k ∈ (processNestedData true data).2.1.map Prod.fst ∧
        k ∈ (processNestedData true data).2.2.map Prod.fst)) := by
  have hsingle : (processNestedData true data).2.1 = (detectRelationTypes true data).1 := rfl
  have hbulk : (processNestedData true data).2.2 = (detectRelationTypes true data).2 := rfl
  have keysingle := fun k => mem_keys_detect_single data k
  have keybulk := fun k => mem_keys_detect_bulk data k
  have keymain := fun k => mem_keys_mainData true data k
  have hdisj : ∀ k,
      ¬(k ∈ (processNestedData true data).1.map Prod.fst ∧
        k ∈ (processNestedData true data).2.1.map Prod.fst) ∧
      ¬(k ∈ (processNestedData true data).1.map Prod.fst ∧
        k ∈ (processNestedData true data).2.2.map Prod.fst) ∧
      ¬(k ∈ (processNestedData true data).2.1.map Prod.fst ∧
        k ∈ (processNestedData true data).2.2.map Prod.fst) := by
    intro k
    refine ⟨?_, ?_, ?_⟩
    · rintro ⟨hm, hs⟩
      obtain ⟨v, _, hns, _⟩ := (keymain k).mp hm
      exact hns (hsingle ▸ hs)
    · rintro ⟨hm, hb⟩
      obtain ⟨v, _, _, hnb⟩ := (keymain k).mp hm
      exact hnb (hbulk ▸ hb)
    · rintro ⟨hs, hb⟩
      obtain ⟨v1, hv1, _, ho⟩ := (keysingle k).mp (hsingle ▸ hs)
      obtain ⟨v2, hv2, _, ha⟩ := (keybulk k).mp (hbulk ▸ hb)
      have := nodup_keys_val_unique hnd hv1 hv2
      subst this
      obtain ⟨fs, rfl⟩ := (isObj_eq_true_iff v1).mp ho
      simp [JsValue.isArr] at ha
  refine ⟨?_, ?_, hdisj⟩
  · intro k v hkv
    refine ⟨?_, ?_, ?_⟩
    · rintro ⟨⟨xs, rfl⟩, hnex⟩
      have hskip : detectSkips k (JsValue.vArr xs) = false := by
        simp [detectSkips, JsValue.typeofIsObject, JsValue.isNull,
          List.elem_iff, hnex]
      have hb : k ∈ (processNestedData true data).2.2.map Prod.fst := by
        rw [hbulk, keybulk]
        exact ⟨JsValue.vArr xs, hkv, hskip, rfl⟩
      exact ⟨hb, fun hs => ((hdisj k).2.2 ⟨hs, hb⟩), fun hm => ((hdisj k).2.1 ⟨hm, hb⟩)⟩
    · rintro ⟨⟨fs, rfl⟩, hnex⟩
      have hskip : detectSkips k (JsValue.vObj fs) = false := by
        simp [detectSkips, JsValue.typeofIsObject, JsValue.isNull,
          List.elem_iff, hnex]
      have hs : k ∈ (processNestedData true data).2.1.map Prod.fst := by
        rw [hsingle, keysingle]
        exact ⟨JsValue.vObj fs, hkv, hskip, rfl⟩
      exact ⟨hs, fun hb => ((hdisj k).2.2 ⟨hs, hb⟩), fun hm => ((hdisj k).1 ⟨hm, hs⟩)⟩
    · intro hother
      have hns : k ∉ (detectRelationTypes true data).1.map Prod.fst := by
        rw [keysingle]
        rintro ⟨v', hv', hskip, ho⟩
        have := nodup_keys_val_unique hnd hkv hv'
        subst this
        obtain ⟨fs, rfl⟩ := (isObj_eq_true_iff v).mp ho
        rcases hother with ⟨_, hno⟩ | hex
        · exact hno ⟨fs, rfl⟩
        · simp [detectSkips, List.elem_iff, hex] at hskip
      have hnb : k ∉ (detectRelationTypes true data).2.map Prod.fst := by
        rw [keybulk]
        rintro ⟨v', hv', hskip, ha⟩
        have := nodup_keys_val_unique hnd hkv hv'
        subst this
        obtain ⟨xs, rfl⟩ := (isArr_eq_true_iff v).mp ha
        rcases hother with ⟨hna, _⟩ | hex
        · exact hna ⟨xs, rfl⟩
        · simp [detectSkips, List.elem_iff, hex] at hskip
      have hm : k ∈ (processNestedData true data).1.map Prod.fst :=
        (keymain k).mpr ⟨v, hkv, hns, hnb⟩
      exact ⟨hm, fun hs => hns (hsingle ▸ hs), fun hb => hnb (hbulk ▸ hb)⟩
  · intro k
    constructor
    · intro hk
      obtain ⟨⟨k', v⟩, hkv, rfl⟩ := List.mem_map.mp hk
      by_cases hs : k' ∈ (processNestedData true data).2.1.map Prod.fst
      · exact Or.inr (Or.inl hs)
      by_cases hb : k' ∈ (processNestedData true data).2.2.map Prod.fst
      · exact Or.inr (Or.inr hb)
      exact Or.inl ((keymain k').mpr ⟨v, hkv, fun h => hs (hsingle ▸ h), fun h => hb (hbulk ▸ h)⟩)
    · rintro (hm | hs | hb)
      · obtain ⟨v, hv, _, _⟩ := (keymain k).mp hm
        exact List.mem_map.mpr ⟨(k, v), hv, rfl⟩
      · obtain ⟨v, hv, _, _⟩ := (keysingle k).mp (hsingle ▸ hs)
        exact List.mem_map.mpr ⟨(k, v), hv, rfl⟩
      · obtain ⟨v, hv, _, _⟩ := (keybulk k).mp (hbulk ▸ hb)
        exact List.mem_map.mpr ⟨(k, v), hv, rfl⟩

theorem C1_relation_detector_partitions_witness :
    "profile" ∈ (processNestedData true
      [("id", JsValue.vNum 1), ("name", JsValue.vStr "J"),
       ("profile", JsValue.vObj [("bio", JsValue.vStr "dev")]),
       ("tags", JsValue.vArr [JsValue.vStr "a"])]).2.1.map Prod.fst ∧
    "tags" ∈ (processNestedData true
      [("id", JsValue.vNum 1), ("name", JsValue.vStr "J"),
       ("profile", JsValue.vObj [("bio", JsValue.vStr "dev")]),
       ("tags", JsValue.vArr [JsValue.vStr "a"])]).2.2.map Prod.fst ∧
    "name" ∈ (processNestedData true
      [("id", JsValue.vNum 1), ("name", JsValue.vStr "J"),
       ("profile", JsValue.vObj [("bio", JsValue.vStr "dev")]),
       ("tags", JsValue.vArr [JsValue.vStr "a"])]).1.map Prod.fst := by
  have h := C1_relation_detector_partitions
      [("id", JsValue.vNum 1), ("name", JsValue.vStr "J"),
       ("profile", JsValue.vObj [("bio", JsValue.vStr "dev")]),
       ("tags", JsValue.vArr [JsValue.vStr "a"])] (by decide)
  refine ⟨?_, ?_, ?_⟩
  · exact ((h.1 "profile" (JsValue.vObj [("bio", JsValue.vStr "dev")])
      (by simp)).2.1 ⟨⟨_, rfl⟩, by decide⟩).1
  · exact ((h.1 "tags" (JsValue.vArr [JsValue.vStr "a"])
      (by simp)).1 ⟨⟨_, rfl⟩, by decide⟩).1
  · exact ((h.1 "name" (JsValue.vStr "J") (by simp)).2.2
      (Or.inl ⟨(by rintro ⟨xs, hx⟩; cases hx), (by rintro ⟨fs, hx⟩; cases hx)⟩)).1


theorem apiMatch_statusCode (cfg : ApiConfig) (ty verb : String) (data : Option JsValue)
    (message : String) (statusCode : Option Nat) (rid : Option String)
    (rt : Nat) (ts : String) :
    (apiMatch cfg ty verb data message statusCode rid rt ts).statusCode =
      if handlerExists ty verb then
        (match statusCode with
         | some n => if n = 0 then getDefaultStatusCode ty verb else n
         | none => getDefaultStatusCode ty verb)
      else 500 := by
  unfold apiMatch createErrorResponse
  by_cases h : handlerExists ty verb
  · simp only [h, Bool.not_true, Bool.false_eq_true, if_false, if_true]
    split <;> simp
  · simp [h]

/-- C4: the default status code of the formatter follows the table
ok/error/info/warning × get/post/put/patch/delete (in particular 204 for a
successful delete and 400 for a failed post), and a non-zero explicitly
supplied status code overrides the table value. -/
theorem C4_status_code_table (cfg : ApiConfig) (data : Option JsValue)
    (message : String) (rid : Option String) (rt : Nat) (ts : String) :
    ((apiMatch cfg "ok" "get" data message none rid rt ts).statusCode = 200 ∧
     (apiMatch cfg "ok" "post" data message none rid rt ts).statusCode = 201 ∧
     (apiMatch cfg "ok" "put" data message none rid rt ts).statusCode = 200 ∧
     (apiMatch cfg "ok" "patch" data message none rid rt ts).statusCode = 200 ∧
     (apiMatch cfg "ok" "delete" data message none rid rt ts).statusCode = 204) ∧
    ((apiMatch cfg "error" "get" data message none rid rt ts).statusCode = 404 ∧
     (apiMatch cfg "error" "post" data message none rid rt ts).statusCode = 400 ∧
     (apiMatch cfg "error" "put" data message none rid rt ts).statusCode = 400 ∧
     (apiMatch cfg "error" "patch" data message none rid rt ts).statusCode = 400 ∧
     (apiMatch cfg "error" "delete" data message none rid rt ts).statusCode = 404) ∧
    ((apiMatch cfg "info" "get" data message none rid rt ts).statusCode = 200 ∧
     (apiMatch cfg "info" "post" data message none rid rt ts).statusCode = 202 ∧
     (apiMatch cfg "info" "put" data message none rid rt ts).statusCode = 202 ∧
     (apiMatch cfg "info" "patch" data message none rid rt ts).statusCode = 202 ∧
     (apiMatch cfg "info" "delete" data message none rid rt ts).statusCode = 202) ∧
    (∀ verb ∈ handlerVerbs,
      (apiMatch cfg "warning" verb data message none rid rt ts).statusCode = 200) ∧
    (∀ ty verb, handlerExists ty verb = true → ∀ n : Nat, n ≠ 0 →
      (apiMatch cfg ty verb data message (some n) rid rt ts).statusCode = n) := by
  refine ⟨?_, ?_, ?_, ?_, ?_⟩
  · refine ⟨?_, ?_, ?_, ?_, ?_⟩ <;>
      simp [apiMatch_statusCode, handlerExists, handlerVerbs, getDefaultStatusCode,
        statusCodesTable]
  · refine ⟨?_, ?_, ?_, ?_, ?_⟩ <;>
      simp [apiMatch_statusCode, handlerExists, handlerVerbs, getDefaultStatusCode,
        statusCodesTable]
  · refine ⟨?_, ?_, ?_, ?_, ?_⟩ <;>
      simp [apiMatch_statusCode, handlerExists, handlerVerbs, getDefaultStatusCode,
        statusCodesTable]
  · intro verb hv
    fin_cases hv <;>
      simp [apiMatch_statusCode, handlerExists, handlerVerbs, getDefaultStatusCode,
        statusCodesTable]
  · intro ty verb hex n hn
    simp [apiMatch_statusCode, hex, hn]

theorem C4_status_code_table_witness :
    handlerExists "ok" "delete" = true ∧ (7 : Nat) ≠ 0 ∧
    (apiMatch (ApiConfig.mk false "1.0.0" none "rid" "p") "ok" "delete" none ""
      (some 7) none 0 "ts").statusCode = 7 ∧
    "get" ∈ handlerVerbs ∧
    (apiMatch (ApiConfig.mk false "1.0.0" none "rid" "p") "warning" "get" none ""
      none none 0 "ts").statusCode = 200 := by
  refine ⟨by decide, by decide, ?_, by decide, ?_⟩
  · exact (C4_status_code_table (ApiConfig.mk false "1.0.0" none "rid" "p") none ""
      none 0 "ts").2.2.2.2 "ok" "delete" (by decide) 7 (by decide)
  · exact (C4_status_code_table (ApiConfig.mk false "1.0.0" none "rid" "p") none ""
      none 0 "ts").2.2.2.1 "get" (by decide)

/-- C5: the error envelope produced by `Api_Response.error` — the formatter
path every CRUD catch block uses — carries no `error: true` flag: at the
input of the repository's own test (`error('get', null, 'Not found', 404)`)
the body is exactly `{message: 'Not found'}`, with no `error` key. -/
theorem C5_error_body_lacks_error_flag :
    (apiError (ApiConfig.mk true "1.0.0" none "rid" "api-response-wrapper") "get"
        none "Not found" (some 404) 0 "ts").body =
      JsValue.vObj [("message", JsValue.vStr "Not found")] ∧
    propLookup
      (apiError (ApiConfig.mk true "1.0.0" none "rid" "api-response-wrapper") "get"
        none "Not found" (some 404) 0 "ts").body.jsEntries "error" = none := by
  constructor <;> rfl

theorem requiredMissing_not_mem_unique_part (env : ConstraintEnv) (uniq : List String)
    (data : List (String × JsValue)) (f : String) :
    Violation.requiredMissing f ∉ uniq.filterMap (fun g =>
      match propLookup data g with
      | none => none
      | some v =>
        match env.findFirst g v with
        | .ok true => some (Violation.uniqueViolation g)
        | .ok false => none
        | .error _ => none) := by
  intro h
  obtain ⟨a, _, ha⟩ := List.mem_filterMap.mp h
  split at ha
  · cases ha
  · split at ha <;> simp_all

theorem requiredMissing_not_mem_fk_part (env : ConstraintEnv) (fks : List ForeignKey)
    (data : List (String × JsValue)) (f : String) :
    Violation.requiredMissing f ∉ fks.filterMap (fun fk =>
      match propLookup data fk.field with
      | none => none
      | some v =>
        match env.referencedExists fk.referencedModel with
        | none => none
        | some findUniqueById =>
          match findUniqueById v with
          | .ok true => none
          | .ok false => some (Violation.foreignKeyViolation fk.field fk.referencedModel)
          | .error _ => some (Violation.foreignKeyCheckError fk.field)) := by
  intro h
  obtain ⟨a, _, ha⟩ := List.mem_filterMap.mp h
  split at ha
  · cases ha
  · split at ha
    · cases ha
    · split at ha <;> simp_all

theorem requiredMissing_mem_checkConstraints (env : ConstraintEnv)
    (st : ModelStructure) (data : List (String × JsValue)) (f : String) :
    Violation.requiredMissing f ∈
        (checkConstraints env "create" data (some st)).violations ↔
      (f ∈ st.requiredFields ∧ isMissingOrEmpty (propLookup data f) = true) := by
  simp only [checkConstraints]
  constructor
  · intro h
    simp only [List.mem_append] at h
    rcases h with (h | h) | h
    · rw [if_pos trivial] at h
      obtain ⟨g, hg, hEq⟩ := List.mem_map.mp h
      obtain ⟨hmem, hfil⟩ := List.mem_filter.mp hg
      cases hEq
      exact ⟨hmem, hfil⟩
    · exact absurd h (requiredMissing_not_mem_unique_part env st.uniqueConstraints data f)
    · exact absurd h (requiredMissing_not_mem_fk_part env st.foreignKeys data f)
  · rintro ⟨hmem, hval⟩
    simp only [List.mem_append]
    refine Or.inl (Or.inl ?_)
    rw [if_pos trivial]
    exact List.mem_map.mpr ⟨f, List.mem_filter.mpr ⟨hmem, by simp [hval]⟩, rfl⟩

/-- C2: on create, the constraint check reports a required-field violation
for exactly those required fields whose payload value is undefined, null or
the empty string, and reports none when every required field is present and
non-empty. -/
theorem C2_required_field_check (env : ConstraintEnv) (st : ModelStructure)
    (data : List (String × JsValue)) :
    (∀ f, Violation.requiredMissing f ∈
        (checkConstraints env "create" data (some st)).violations ↔
      (f ∈ st.requiredFields ∧ isMissingOrEmpty (propLookup data f) = true)) ∧
    ((∀ f ∈ st.requiredFields, isMissingOrEmpty (propLookup data f) = false) →
      ∀ f, Violation.requiredMissing f ∉
        (checkConstraints env "create" data (some st)).violations) := by
  refine ⟨fun f => requiredMissing_mem_checkConstraints env st data f, ?_⟩
  intro hall f hmem
  obtain ⟨hf, hval⟩ := (requiredMissing_mem_checkConstraints env st data f).mp hmem
  rw [hall f hf] at hval
  cases hval

theorem C2_required_field_check_witness :
    (Violation.requiredMissing "title" ∈
      (checkConstraints ⟨fun _ _ => .ok false, fun _ => none⟩ "create"
        [("content", JsValue.vStr "hi")]
        (some ⟨["title"], [], [], false, [], []⟩)).violations) ∧
    (∀ f ∈ (["title"] : List String),
      isMissingOrEmpty (propLookup [("title", JsValue.vStr "T")] f) = false) ∧
    (∀ f, Violation.requiredMissing f ∉
      (checkConstraints ⟨fun _ _ => .ok false, fun _ => none⟩ "create"
        [("title", JsValue.vStr "T")]
        (some ⟨["title"], [], [], false, [], []⟩)).violations) := by
  refine ⟨?_, by decide, ?_⟩
  · exact ((C2_required_field_check ⟨fun _ _ => .ok false, fun _ => none⟩
      ⟨["title"], [], [], false, [], []⟩ [("content", JsValue.vStr "hi")]).1 "title").mpr
      ⟨by decide, by decide⟩
  · exact (C2_required_field_check ⟨fun _ _ => .ok false, fun _ => none⟩
      ⟨["title"], [], [], false, [], []⟩ [("title", JsValue.vStr "T")]).2 (by decide)

theorem uniqueViolation_mem_checkConstraints (env : ConstraintEnv) (op : String)
    (st : ModelStructure) (data : List (String × JsValue)) (f : String) (v : JsValue)
    (hf : f ∈ st.uniqueConstraints) (hlook : propLookup data f = some v)
    (hff : env.findFirst f v = .ok true) :
    Violation.uniqueViolation f ∈ (checkConstraints env op data (some st)).violations := by
  simp only [checkConstraints, List.mem_append]
  refine Or.inl (Or.inr ?_)
  refine List.mem_filterMap.mpr ⟨f, hf, ?_⟩
  rw [hlook]
  show (match env.findFirst f v with
        | Except.ok true => some (Violation.uniqueViolation f)
        | Except.ok false => none
        | Except.error _ => none) = some (Violation.uniqueViolation f)
  rw [hff]

theorem checkConstraints_isValid_false {env : ConstraintEnv} {op : String}
    {data : List (String × JsValue)} {st : ModelStructure} {x : Violation}
    (h : x ∈ (checkConstraints env op data (some st)).violations) :
    (checkConstraints env op data (some st)).isValid = false := by
  have hiv : (checkConstraints env op data (some st)).isValid =
      (checkConstraints env op data (some st)).violations.isEmpty := by
    simp [checkConstraints]
  rw [hiv]
  cases hL : (checkConstraints env op data (some st)).violations with
  | nil => rw [hL] at h; cases h
  | cons a l => simp

/-- C10: the uniqueness loop of the constraint check runs on update too and
never excludes the target row: whenever a unique field is present in the
update payload and the `findFirst` lookup on just that field/value pair finds
any row (the target row included), `checkConstraints('update', ...)` reports
a uniqueness violation, and the PUT handler with constraint checking enabled
rejects the request before `model.update` is called. -/
theorem C10_uniqueness_check_on_update (cfg : ApiConfig)
    (enableCascade autoDetect : Bool) (hooks : RouteHooks) (cenv : ConstraintEnv)
    (casc : CascadeEnv) (st : ModelStructure)
    (updateFn : Int → List (String × JsValue) → Except String JsValue)
    (id : Int) (fields : List (String × JsValue)) (f : String) (v : JsValue)
    (em : String) (es rt : Nat) (ts : String)
    (hb : hooks.beforeUpdate = none) (hv : hooks.validateUpdate = none)
    (hf : f ∈ st.uniqueConstraints)
    (hlook : propLookup fields f = some v)
    (hff : cenv.findFirst f v = .ok true) :
    Violation.uniqueViolation f ∈
      (checkConstraints cenv "update" fields (some st)).violations ∧
    (checkConstraints cenv "update" fields (some st)).isValid = false ∧
    (putRoute cfg true enableCascade autoDetect hooks cenv casc (some st) updateFn
      id (JsValue.vObj fields) em es rt ts).2 = 0 ∧
    ("X-Response-Type", "error") ∈
      (putRoute cfg true enableCascade autoDetect hooks cenv casc (some st) updateFn
        id (JsValue.vObj fields) em es rt ts).1.headers := by
  have hmem := uniqueViolation_mem_checkConstraints cenv "update" st fields f v hf hlook hff
  have hinv := checkConstraints_isValid_false hmem
  have houtcome : putHandler true enableCascade autoDetect hooks cenv casc (some st)
      updateFn id (JsValue.vObj fields) =
      { result := .error (.constraintViolations
          (checkConstraints cenv "update" fields (some st)).violations),
        persistenceCalls := 0 } := by
    simp [putHandler, hb, hv, JsValue.jsTruthy, JsValue.typeofIsObject,
      JsValue.jsEntries, hinv]
  refine ⟨hmem, hinv, ?_, ?_⟩
  · simp [putRoute, houtcome]
  · simp [putRoute, houtcome, handleError, apiError, apiMatch, handlerExists,
      handlerVerbs, apiHeaders]

theorem C10_uniqueness_check_on_update_witness :
    ((⟨none, none, none, none, none, none, none, none⟩ : RouteHooks).beforeUpdate
        = none) ∧
    "email" ∈ (⟨[], ["email"], [], false, [], []⟩ : ModelStructure).uniqueConstraints ∧
    propLookup [("email", JsValue.vStr "a")] "email" = some (JsValue.vStr "a") ∧
    Violation.uniqueViolation "email" ∈
      (checkConstraints ⟨fun _ _ => .ok true, fun _ => none⟩ "update"
        [("email", JsValue.vStr "a")]
        (some ⟨[], ["email"], [], false, [], []⟩)).violations ∧
    (putRoute (ApiConfig.mk false "1.0.0" none "rid" "p") true true true
      ⟨none, none, none, none, none, none, none, none⟩
      ⟨fun _ _ => .ok true, fun _ => none⟩
      ⟨fun _ => .ok [], fun _ => .ok (), fun _ _ _ => .ok ()⟩
      (some ⟨[], ["email"], [], false, [], []⟩)
      (fun _ _ => .ok JsValue.vNull) 1 (JsValue.vObj [("email", JsValue.vStr "a")])
      "err" 500 0 "ts").2 = 0 := by
  refine ⟨rfl, by decide, rfl, ?_, ?_⟩
  · exact (C10_uniqueness_check_on_update (ApiConfig.mk false "1.0.0" none "rid" "p")
      true true ⟨none, none, none, none, none, none, none, none⟩
      ⟨fun _ _ => .ok true, fun _ => none⟩
      ⟨fun _ => .ok [], fun _ => .ok (), fun _ _ _ => .ok ()⟩
      ⟨[], ["email"], [], false, [], []⟩ (fun _ _ => .ok JsValue.vNull) 1
      [("email", JsValue.vStr "a")] "email" (JsValue.vStr "a") "err" 500 0 "ts"
      rfl rfl (by decide) rfl rfl).1
  · exact (C10_uniqueness_check_on_update (ApiConfig.mk false "1.0.0" none "rid" "p")
      true true ⟨none, none, none, none, none, none, none, none⟩
      ⟨fun _ _ => .ok true, fun _ => none⟩
      ⟨fun _ => .ok [], fun _ => .ok (), fun _ _ _ => .ok ()⟩
      ⟨[], ["email"], [], false, [], []⟩ (fun _ _ => .ok JsValue.vNull) 1
      [("email", JsValue.vStr "a")] "email" (JsValue.vStr "a") "err" 500 0 "ts"
      rfl rfl (by decide) rfl rfl).2.2.1

/-- C3: on a POST with constraint checking enabled, a failing constraint
check makes the handler throw before any persistence write: the outcome is
the error envelope and the number of `model.create` calls is zero. -/
theorem C3_constraint_failure_blocks_create (cfg : ApiConfig) (autoDetect : Bool)
    (hooks : RouteHooks) (cenv : ConstraintEnv) (mstruct : Option ModelStructure)
    (createFn : List (String × JsValue) → Except String JsValue)
    (fields : List (String × JsValue)) (em : String) (es rt : Nat) (ts : String)
    (hb : hooks.beforeCreate = none) (hv : hooks.validateCreate = none)
    (hinv : (checkConstraints cenv "create" fields mstruct).isValid = false) :
    (postRoute cfg true autoDetect hooks cenv mstruct createFn
      (JsValue.vObj fields) em es rt ts).2 = 0 ∧
    ("X-Response-Type", "error") ∈
      (postRoute cfg true autoDetect hooks cenv mstruct createFn
        (JsValue.vObj fields) em es rt ts).1.headers := by
  have houtcome : postHandler true autoDetect hooks cenv mstruct createFn
      (JsValue.vObj fields) =
      { result := .error (.constraintViolations
          (checkConstraints cenv "create" fields mstruct).violations),
        persistenceCalls := 0 } := by
    simp [postHandler, hb, hv, applyHook, JsValue.jsTruthy, JsValue.typeofIsObject,
      JsValue.jsEntries, hinv]
  constructor
  · simp [postRoute, houtcome]
  · simp [postRoute, houtcome, handleError, apiError, apiMatch, handlerExists,
      handlerVerbs, apiHeaders]

theorem C3_constraint_failure_blocks_create_witness :
    ((⟨none, none, none, none, none, none, none, none⟩ : RouteHooks).beforeCreate
        = none) ∧
    (checkConstraints ⟨fun _ _ => .ok false, fun _ => none⟩ "create"
      [("content", JsValue.vStr "hi")]
      (some ⟨["title"], [], [], false, [], []⟩)).isValid = false ∧
    (postRoute (ApiConfig.mk false "1.0.0" none "rid" "p") true true
      ⟨none, none, none, none, none, none, none, none⟩
      ⟨fun _ _ => .ok false, fun _ => none⟩
      (some ⟨["title"], [], [], false, [], []⟩)
      (fun _ => .ok JsValue.vNull) (JsValue.vObj [("content", JsValue.vStr "hi")])
      "err" 500 0 "ts").2 = 0 := by
  refine ⟨rfl, by decide, ?_⟩
  exact (C3_constraint_failure_blocks_create (ApiConfig.mk false "1.0.0" none "rid" "p")
    true ⟨none, none, none, none, none, none, none, none⟩
    ⟨fun _ _ => .ok false, fun _ => none⟩
    (some ⟨["title"], [], [], false, [], []⟩) (fun _ => .ok JsValue.vNull)
    [("content", JsValue.vStr "hi")] "err" 500 0 "ts" rfl rfl (by decide)).1

theorem cascade_success_false_of_any_error (L : List CascadeMsg)
    (h : L.any msgIsError = true) :
    (L.isEmpty || L.all fun m => !msgIsError m) = false := by
  obtain ⟨m, hm, hme⟩ := List.any_eq_true.mp h
  rcases L with _ | ⟨a, l⟩
  · cases hm
  · simp only [List.isEmpty_cons, Bool.false_or]
    rw [Bool.eq_false_iff]
    intro hall
    have := List.all_eq_true.mp hall m hm
    simp [hme] at this

/-- C6: with cascade handling enabled, failures inside the cascade pass are
only collected (the aggregate success flag drops to false) and never prevent
the primary delete: whatever the cascade environment does — including
throwing lookups and failing dependent deletes — the DELETE route still
executes `model.delete`, and when that succeeds the response is the success
envelope for delete (status 204). -/
theorem C6_cascade_failures_never_block_delete (cfg : ApiConfig)
    (hooks : RouteHooks) (casc casc2 : CascadeEnv)
    (mstruct : Option ModelStructure) (row : JsValue) (id : Int)
    (em : String) (es rt : Nat) (ts : String)
    (hpre : hooks.beforeDestroy = none) :
    (deleteRoute cfg true hooks casc mstruct (.ok row) id em es rt ts).2 = true ∧
    (deleteRoute cfg true hooks casc mstruct (.ok row) id em es rt ts).1 =
      apiSuccess cfg "delete" (some (applyHook hooks.afterDestroy row)) "" none rt ts ∧
    (deleteRoute cfg true hooks casc mstruct (.ok row) id em es rt ts).1.statusCode
      = 204 ∧
    deleteRoute cfg true hooks casc mstruct (.ok row) id em es rt ts =
      deleteRoute cfg true hooks casc2 mstruct (.ok row) id em es rt ts ∧
    (∀ env st2 id2 d,
      (handleCascadeOperations env "delete" d (some st2) id2).2.any msgIsError = true →
      (handleCascadeOperations env "delete" d (some st2) id2).1 = false) := by
  refine ⟨?_, ?_, ?_, ?_, ?_⟩
  · simp [deleteRoute, deleteRoutePrimary, hpre]
  · simp [deleteRoute, deleteRoutePrimary, hpre, apiSuccess]
  · simp [deleteRoute, deleteRoutePrimary, hpre, apiSuccess, apiMatch_statusCode,
      handlerExists, handlerVerbs, getDefaultStatusCode, statusCodesTable]
  · simp [deleteRoute, deleteRoutePrimary, hpre]
  · intro env st2 id2 d hany
    by_cases hrel : st2.hasRelations
    · simp only [handleCascadeOperations, hrel, Bool.not_true, Bool.false_eq_true,
        if_false] at hany ⊢
      exact cascade_success_false_of_any_error _ hany
    · simp [handleCascadeOperations, hrel] at hany

theorem C6_cascade_failures_never_block_delete_witness :
    ((⟨none, none, none, none, none, none, none, none⟩ : RouteHooks).beforeDestroy
        = none) ∧
    (handleCascadeOperations
      ⟨fun _ => .error "boom", fun _ => .error "boom", fun _ _ _ => .error "boom"⟩
      "delete" [] (some ⟨[], [], [⟨"userId", "User"⟩], true, ["userId"], []⟩)
      1).2.any msgIsError = true ∧
    (handleCascadeOperations
      ⟨fun _ => .error "boom", fun _ => .error "boom", fun _ _ _ => .error "boom"⟩
      "delete" [] (some ⟨[], [], [⟨"userId", "User"⟩], true, ["userId"], []⟩)
      1).1 = false ∧
    (deleteRoute (ApiConfig.mk false "1.0.0" none "rid" "p") true
      ⟨none, none, none, none, none, none, none, none⟩
      ⟨fun _ => .error "boom", fun _ => .error "boom", fun _ _ _ => .error "boom"⟩
      (some ⟨[], [], [⟨"userId", "User"⟩], true, ["userId"], []⟩)
      (.ok (JsValue.vObj [("id", JsValue.vNum 1)])) 1 "err" 500 0 "ts").2 = true := by
  refine ⟨rfl, by decide, ?_, ?_⟩
  · exact (C6_cascade_failures_never_block_delete
      (ApiConfig.mk false "1.0.0" none "rid" "p")
      ⟨none, none, none, none, none, none, none, none⟩
      ⟨fun _ => .error "boom", fun _ => .error "boom", fun _ _ _ => .error "boom"⟩
      ⟨fun _ => .ok [], fun _ => .ok (), fun _ _ _ => .ok ()⟩
      (some ⟨[], [], [⟨"userId", "User"⟩], true, ["userId"], []⟩)
      (JsValue.vObj [("id", JsValue.vNum 1)]) 1 "err" 500 0 "ts" rfl).2.2.2.2
      ⟨fun _ => .error "boom", fun _ => .error "boom", fun _ _ _ => .error "boom"⟩
      ⟨[], [], [⟨"userId", "User"⟩], true, ["userId"], []⟩ 1 [] (by decide)
  · exact (C6_cascade_failures_never_block_delete
      (ApiConfig.mk false "1.0.0" none "rid" "p")
      ⟨none, none, none, none, none, none, none, none⟩
      ⟨fun _ => .error "boom", fun _ => .error "boom", fun _ _ _ => .error "boom"⟩
      ⟨fun _ => .ok [], fun _ => .ok (), fun _ _ _ => .ok ()⟩
      (some ⟨[], [], [⟨"userId", "User"⟩], true, ["userId"], []⟩)
      (JsValue.vObj [("id", JsValue.vNum 1)]) 1 "err" 500 0 "ts" rfl).1

theorem filterWhereProps_keys_subset (props : List (String × JsValue))
    (vf : List String) (k : String)
    (hk : k ∈ (filterWhereProps props vf).map Prod.fst) :
    k ∈ logicalOps ∨ k ∈ vf := by
  induction props with
  | nil => simp [filterWhereProps] at hk
  | cons hd tl ih =>
    obtain ⟨key, value⟩ := hd
    cases value <;>
      (simp only [filterWhereProps] at hk;
       split at hk)
    all_goals first
      | exact ih hk
      | (simp only [List.map_cons, List.mem_cons] at hk
         rcases hk with rfl | hk
         · exact Or.inl (List.elem_iff.mp (by assumption))
         · exact ih hk)
      | (split at hk
         all_goals first
           | exact ih hk
           | (simp only [List.map_cons, List.mem_cons] at hk
              rcases hk with rfl | hk
              · exact Or.inl (List.elem_iff.mp (by assumption))
              · exact ih hk)
           | (split at hk
              all_goals first
                | exact ih hk
                | (simp only [List.map_cons, List.mem_cons] at hk
                   rcases hk with rfl | hk
                   · first
                       | exact Or.inl (List.elem_iff.mp (by assumption))
                       | exact Or.inr (List.elem_iff.mp (by assumption))
                   · exact ih hk)))

/-- C7 counterexample: when field introspection failed (the known-field set
is empty), the list handler's where-filter does NOT pass the filter through
unfiltered — the plain field `name` is stripped, leaving an empty filter. -/
theorem C7_degraded_mode_counterexample :
    listFilteredFilter (some []) ["password"] []
        (JsValue.vObj [("name", JsValue.vStr "x")]) = JsValue.vObj [] ∧
    listFilteredFilter (some []) ["password"] []
        (JsValue.vObj [("name", JsValue.vStr "x")]) ≠
      JsValue.vObj [("name", JsValue.vStr "x")] := by
  refine ⟨rfl, ?_⟩
  intro h
  rw [show listFilteredFilter (some []) ["password"] []
      (JsValue.vObj [("name", JsValue.vStr "x")]) = JsValue.vObj [] from rfl] at h
  simp at h

/-- C7 amended: every top-level field of the parsed filter that survives the
list handler's where-filtering is either a logical operator (`AND`/`OR`/`NOT`)
or in the model's known-field set (minus the exclusion lists); in particular,
when introspection failed (no structure, or an empty field list) every plain
field is stripped — the filter degrades to logical-operator shells only, it
is not passed through. -/
theorem C7_filter_field_stripping (props : List (String × JsValue))
    (sf : Option (List String)) (gx rx : List String) :
    (∀ k, k ∈ (listFilteredFilter sf gx rx (JsValue.vObj props)).jsKeys →
      k ∈ logicalOps ∨ k ∈ listFilteredFields (listValidFields sf) gx rx) ∧
    ((sf = none ∨ sf = some []) →
      ∀ k, k ∈ (listFilteredFilter sf gx rx (JsValue.vObj props)).jsKeys →
        k ∈ logicalOps) := by
  have hshape : listFilteredFilter sf gx rx (JsValue.vObj props) =
      JsValue.vObj (filterWhereProps props
        (listFilteredFields (listValidFields sf) gx rx)) := rfl
  constructor
  · intro k hk
    rw [hshape] at hk
    exact filterWhereProps_keys_subset props _ k hk
  · intro hsf k hk
    rw [hshape] at hk
    rcases filterWhereProps_keys_subset props _ k hk with h | h
    · exact h
    · exfalso
      rcases hsf with rfl | rfl <;>
        simp [listValidFields, listFilteredFields] at h

theorem C7_filter_field_stripping_witness :
    ((some ([] : List String)) = none ∨ (some ([] : List String)) = some []) ∧
    (∀ k, k ∈ (listFilteredFilter (some []) ["password"] []
        (JsValue.vObj [("name", JsValue.vStr "x"),
          ("AND", JsValue.vArr [JsValue.vObj [("age", JsValue.vNum 3)]])])).jsKeys →
      k ∈ logicalOps) :=
  ⟨Or.inr rfl,
   (C7_filter_field_stripping
      [("name", JsValue.vStr "x"),
       ("AND", JsValue.vArr [JsValue.vObj [("age", JsValue.vNum 3)]])]
      (some []) ["password"] []).2 (Or.inr rfl)⟩

/-- C8 counterexample: with a select query parameter present whose only field
does not survive validation, the issued `findMany` call carries NO select
argument (the emptied select is deleted) — and no include argument either —
contradicting "the resulting findMany call carries a select argument". -/
theorem C8_select_dropped_counterexample :
    (composeListQueryArgs (some (JsValue.vArr [JsValue.vStr "bogus"]))
      (some (JsValue.vObj [("rel", JsValue.vBool true)]))
      false false false true []
      (some ⟨[], [], [], false, [], []⟩) ["id"] ["id"]).select = none ∧
    (composeListQueryArgs (some (JsValue.vArr [JsValue.vStr "bogus"]))
      (some (JsValue.vObj [("rel", JsValue.vBool true)]))
      false false false true []
      (some ⟨[], [], [], false, [], []⟩) ["id"] ["id"]).includeArg = none := by
  constructor <;> rfl

theorem processSelect_truthy (sq : JsValue) (ff : List String)
    (hsq : sq.jsTruthy = true) : (processSelect sq ff).jsTruthy = true := by
  cases sq <;> simp_all [processSelect, JsValue.jsTruthy]

/-- C8 amended: whenever a (truthy) select query parameter is present, the
include query parameter and the relation-derived include object are ignored —
the `findMany` call never carries an include argument — and the select
argument is the validated select, except that a select emptied by validation
is dropped, so the call then carries neither select nor include. -/
theorem C8_select_include_mutual_exclusion (selectQ : JsValue)
    (includeQ : Option JsValue) (ob sp tp ir : Bool) (er : List String)
    (ms : Option ModelStructure) (ff vfds : List String)
    (hsq : selectQ.jsTruthy = true) :
    (composeListQueryArgs (some selectQ) includeQ ob sp tp ir er ms ff vfds).includeArg
      = none ∧
    (composeListQueryArgs (some selectQ) includeQ ob sp tp ir er ms ff vfds).select =
      pruneSelect (processSelect selectQ ff) vfds := by
  have ht := processSelect_truthy selectQ ff hsq
  constructor <;> simp [composeListQueryArgs, hsq, ht]

theorem C8_select_include_mutual_exclusion_witness :
    (JsValue.vArr [JsValue.vStr "id"]).jsTruthy = true ∧
    (composeListQueryArgs (some (JsValue.vArr [JsValue.vStr "id"]))
      (some (JsValue.vObj [("rel", JsValue.vBool true)]))
      false false false true []
      (some ⟨[], [], [], false, [], []⟩) ["id"] ["id"]).includeArg = none ∧
    (composeListQueryArgs (some (JsValue.vArr [JsValue.vStr "id"]))
      (some (JsValue.vObj [("rel", JsValue.vBool true)]))
      false false false true []
      (some ⟨[], [], [], false, [], []⟩) ["id"] ["id"]).select =
        some (JsValue.vObj [("id", JsValue.vBool true)]) := by
  refine ⟨by decide, (C8_select_include_mutual_exclusion (JsValue.vArr [JsValue.vStr "id"])
    (some (JsValue.vObj [("rel", JsValue.vBool true)])) false false false true []
    (some ⟨[], [], [], false, [], []⟩) ["id"] ["id"] (by decide)).1, ?_⟩
  rw [(C8_select_include_mutual_exclusion (JsValue.vArr [JsValue.vStr "id"])
    (some (JsValue.vObj [("rel", JsValue.vBool true)])) false false false true []
    (some ⟨[], [], [], false, [], []⟩) ["id"] ["id"] (by decide)).2]
  rfl

theorem toNat_ofNat_small (n : Nat) (h : n < 55296) : (Char.ofNat n).toNat = n := by
  have hv : Nat.isValidChar n := Or.inl h
  unfold Char.ofNat
  rw [dif_pos hv]
  rfl

theorem char_eq_of_toNat_eq {a b : Char} (h : a.toNat = b.toNat) : a = b := by
  have ha := Char.ofNat_toNat a
  rw [← ha, h, Char.ofNat_toNat]

theorem char_toNat_lt (c : Char) : c.toNat < 1114112 := by
  have := c.valid
  rcases this with h | ⟨h1, h2⟩ <;> (unfold Char.toNat UInt32.toNat at *; omega)

theorem base64Val_base64Char : ∀ n < 64, base64Val (base64Char n) = some n := by
  decide

theorem base64Char_ne_equals : ∀ n < 64, (base64Char n = equalsChar) = False := by
  decide

theorem base64_roundtrip : ∀ (bs : List Nat), (∀ b ∈ bs, b < 256) →
    base64Decode (base64Encode bs) = some bs
  | [], _ => rfl
  | [b1], h => by
    have hb1 : b1 < 256 := h b1 (by simp)
    simp only [base64Encode, base64Decode,
      base64Val_base64Char (b1 / 4) (by omega),
      base64Val_base64Char (b1 % 4 * 16) (by omega), if_true, and_self]
    have e1 : b1 / 4 * 4 + b1 % 4 * 16 / 16 = b1 := by omega
    rw [e1]
  | [b1, b2], h => by
    have hb1 : b1 < 256 := h b1 (by simp)
    have hb2 : b2 < 256 := h b2 (by simp)
    simp only [base64Encode, base64Decode,
      base64Val_base64Char (b1 / 4) (by omega),
      base64Val_base64Char (b1 % 4 * 16 + b2 / 16) (by omega),
      base64Val_base64Char (b2 % 16 * 4) (by omega),
      base64Char_ne_equals (b2 % 16 * 4) (by omega), if_true, if_false]
    have e1 : b1 / 4 * 4 + (b1 % 4 * 16 + b2 / 16) / 16 = b1 := by omega
    have e2 : (b1 % 4 * 16 + b2 / 16) % 16 * 16 + b2 % 16 * 4 / 4 = b2 := by omega
    rw [e1, e2]
  | [b1, b2, b3], h => by
    have hb1 : b1 < 256 := h b1 (by simp)
    have hb2 : b2 < 256 := h b2 (by simp)
    have hb3 : b3 < 256 := h b3 (by simp)
    simp only [base64Encode, base64Decode,
      base64Val_base64Char (b1 / 4) (by omega),
      base64Val_base64Char (b1 % 4 * 16 + b2 / 16) (by omega),
      base64Val_base64Char (b2 % 16 * 4 + b3 / 64) (by omega),
      base64Val_base64Char (b3 % 64) (by omega),
      base64Char_ne_equals (b2 % 16 * 4 + b3 / 64) (by omega),
      base64Char_ne_equals (b3 % 64) (by omega), if_true, if_false]
    have e1 : b1 / 4 * 4 + (b1 % 4 * 16 + b2 / 16) / 16 = b1 := by omega
    have e2 : (b1 % 4 * 16 + b2 / 16) % 16 * 16 + (b2 % 16 * 4 + b3 / 64) / 4 = b2 := by
      omega
    have e3 : (b2 % 16 * 4 + b3 / 64) % 4 * 64 + b3 % 64 = b3 := by omega
    rw [e1, e2, e3]
  | b1 :: b2 :: b3 :: b4 :: rest, h => by
    have hb1 : b1 < 256 := h b1 (by simp)
    have hb2 : b2 < 256 := h b2 (by simp)
    have hb3 : b3 < 256 := h b3 (by simp)
    have ih := base64_roundtrip (b4 :: rest) (fun b hb => h b (by simp_all))
    simp only [base64Encode, base64Decode,
      base64Val_base64Char (b1 / 4) (by omega),
      base64Val_base64Char (b1 % 4 * 16 + b2 / 16) (by omega),
      base64Val_base64Char (b2 % 16 * 4 + b3 / 64) (by omega),
      base64Val_base64Char (b3 % 64) (by omega),
      base64Char_ne_equals (b2 % 16 * 4 + b3 / 64) (by omega),
      base64Char_ne_equals (b3 % 64) (by omega), if_true, if_false]
    rw [ih]
    have e1 : b1 / 4 * 4 + (b1 % 4 * 16 + b2 / 16) / 16 = b1 := by omega
    have e2 : (b1 % 4 * 16 + b2 / 16) % 16 * 16 + (b2 % 16 * 4 + b3 / 64) / 4 = b2 := by
      omega
    have e3 : (b2 % 16 * 4 + b3 / 64) % 4 * 64 + b3 % 64 = b3 := by omega
    simp only [e1, e2, e3]

theorem utf8EncodeChar_lt_256 (c : Char) : ∀ b ∈ utf8EncodeChar c, b < 256 := by
  have hc := char_toNat_lt c
  intro b hb
  by_cases h1 : c.toNat < 128
  · simp only [utf8EncodeChar, if_pos h1, List.mem_singleton] at hb
    omega
  · by_cases h2 : c.toNat < 2048
    · simp only [utf8EncodeChar, if_neg h1, if_pos h2, List.mem_cons,
        List.not_mem_nil, or_false] at hb
      rcases hb with rfl | rfl <;> omega
    · by_cases h3 : c.toNat < 65536
      · simp only [utf8EncodeChar, if_neg h1, if_neg h2, if_pos h3, List.mem_cons,
          List.not_mem_nil, or_false] at hb
        rcases hb with rfl | rfl | rfl <;> omega
      · simp only [utf8EncodeChar, if_neg h1, if_neg h2, if_neg h3, List.mem_cons,
          List.not_mem_nil, or_false] at hb
        rcases hb with rfl | rfl | rfl | rfl <;> omega

theorem utf8Encode_lt_256 (cs : List Char) : ∀ b ∈ utf8Encode cs, b < 256 := by
  induction cs with
  | nil => intro b hb; cases hb
  | cons c cs ih =>
    intro b hb
    simp only [utf8Encode, List.mem_append] at hb
    rcases hb with hb | hb
    · exact utf8EncodeChar_lt_256 c b hb
    · exact ih b hb

theorem utf8EncodeChar_eq (c : Char) :
    utf8EncodeChar c =
      (if c.toNat < 128 then [c.toNat]
       else if c.toNat < 2048 then [192 + c.toNat / 64, 128 + c.toNat % 64]
       else if c.toNat < 65536 then
         [224 + c.toNat / 4096, 128 + c.toNat / 64 % 64, 128 + c.toNat % 64]
       else [240 + c.toNat / 262144, 128 + c.toNat / 4096 % 64,
         128 + c.toNat / 64 % 64, 128 + c.toNat % 64]) := rfl

theorem utf8EncodeChar_ne_nil (c : Char) : utf8EncodeChar c ≠ [] := by
  rw [utf8EncodeChar_eq]
  split
  · simp
  · split
    · simp
    · split <;> simp

theorem length_le_utf8Encode_length (cs : List Char) :
    cs.length ≤ (utf8Encode cs).length := by
  induction cs with
  | nil => simp [utf8Encode]
  | cons c cs ih =>
    simp only [utf8Encode, List.length_cons, List.length_append]
    have := utf8EncodeChar_ne_nil c
    have hpos : 0 < (utf8EncodeChar c).length := List.length_pos.mpr this
    omega

theorem utf8DecodeOne_encode (c : Char) (rest : List Nat) :
    ∃ b tailB, utf8EncodeChar c = b :: tailB ∧
      utf8DecodeOne b (tailB ++ rest) = some (c.toNat, rest) := by
  have hc := char_toNat_lt c
  by_cases h1 : c.toNat < 128
  · refine ⟨c.toNat, [], by rw [utf8EncodeChar_eq, if_pos h1], ?_⟩
    simp only [List.nil_append, utf8DecodeOne, if_pos h1]
  · by_cases h2 : c.toNat < 2048
    · refine ⟨192 + c.toNat / 64, [128 + c.toNat % 64],
        by rw [utf8EncodeChar_eq, if_neg h1, if_pos h2], ?_⟩
      have hb : ¬(192 + c.toNat / 64 < 128) := by omega
      have hr : 192 ≤ 192 + c.toNat / 64 ∧ 192 + c.toNat / 64 < 224 := by omega
      have hc2 : 128 ≤ 128 + c.toNat % 64 ∧ 128 + c.toNat % 64 < 192 := by omega
      simp only [List.cons_append, List.nil_append, utf8DecodeOne, if_neg hb,
        if_pos hr, if_pos hc2]
      congr 2
      omega
    · by_cases h3 : c.toNat < 65536
      · refine ⟨224 + c.toNat / 4096, [128 + c.toNat / 64 % 64, 128 + c.toNat % 64],
          by rw [utf8EncodeChar_eq, if_neg h1, if_neg h2, if_pos h3], ?_⟩
        have hb : ¬(224 + c.toNat / 4096 < 128) := by omega
        have hb2 : ¬(192 ≤ 224 + c.toNat / 4096 ∧ 224 + c.toNat / 4096 < 224) := by
          omega
        have hr : 224 ≤ 224 + c.toNat / 4096 ∧ 224 + c.toNat / 4096 < 240 := by omega
        have hc2 : (128 ≤ 128 + c.toNat / 64 % 64 ∧ 128 + c.toNat / 64 % 64 < 192) ∧
            128 ≤ 128 + c.toNat % 64 ∧ 128 + c.toNat % 64 < 192 := by omega
        simp only [List.cons_append, List.nil_append, utf8DecodeOne, if_neg hb,
          if_neg hb2, if_pos hr, if_pos hc2]
        congr 2
        omega
      · refine ⟨240 + c.toNat / 262144,
          [128 + c.toNat / 4096 % 64, 128 + c.toNat / 64 % 64, 128 + c.toNat % 64],
          by rw [utf8EncodeChar_eq, if_neg h1, if_neg h2, if_neg h3], ?_⟩
        have hb : ¬(240 + c.toNat / 262144 < 128) := by omega
        have hb2 : ¬(192 ≤ 240 + c.toNat / 262144 ∧ 240 + c.toNat / 262144 < 224) := by
          omega
        have hb3 : ¬(224 ≤ 240 + c.toNat / 262144 ∧ 240 + c.toNat / 262144 < 240) := by
          omega
        have hr : 240 ≤ 240 + c.toNat / 262144 ∧ 240 + c.toNat / 262144 < 248 := by
          omega
        have hc2 : (128 ≤ 128 + c.toNat / 4096 % 64 ∧ 128 + c.toNat / 4096 % 64 < 192) ∧
            (128 ≤ 128 + c.toNat / 64 % 64 ∧ 128 + c.toNat / 64 % 64 < 192) ∧
            128 ≤ 128 + c.toNat % 64 ∧ 128 + c.toNat % 64 < 192 := by omega
        simp only [List.cons_append, List.nil_append, utf8DecodeOne, if_neg hb,
          if_neg hb2, if_neg hb3, if_pos hr, if_pos hc2]
        congr 2
        omega

theorem utf8DecodeGo_encode (cs : List Char) : ∀ fuel, cs.length ≤ fuel →
    utf8DecodeGo fuel (utf8Encode cs) = some cs := by
  induction cs with
  | nil => intro fuel _; cases fuel <;> rfl
  | cons c cs ih =>
    intro fuel hfuel
    obtain ⟨f, rfl⟩ : ∃ f, fuel = f + 1 := ⟨fuel - 1, by simp at hfuel; omega⟩
    obtain ⟨b, tailB, henc, hdec⟩ := utf8DecodeOne_encode c (utf8Encode cs)
    have hform : utf8Encode (c :: cs) = b :: (tailB ++ utf8Encode cs) := by
      simp [utf8Encode, henc]
    rw [hform]
    simp only [utf8DecodeGo, hdec, ih f (by simp at hfuel; omega), Char.ofNat_toNat]

theorem utf8_roundtrip (cs : List Char) : utf8Decode (utf8Encode cs) = some cs :=
  utf8DecodeGo_encode cs (utf8Encode cs).length
    (le_trans (length_le_utf8Encode_length cs) (le_refl _))

theorem goodRest_cons (c : Char) (cs : List Char) (h : isDigitCh c = false) :
    goodRest (c :: cs) := h

theorem parseDigitsAux_append (ds : List Char) :
    (∀ c ∈ ds, isDigitCh c = true) → ∀ (acc : Nat) (rest : List Char), goodRest rest →
    parseDigitsAux acc (ds ++ rest) =
      (ds.foldl (fun a c => 10 * a + digitVal c) acc, rest) := by
  induction ds with
  | nil =>
    intro _ acc rest hrest
    cases rest with
    | nil => rfl
    | cons c cs =>
      simp only [List.nil_append, List.foldl_nil, parseDigitsAux]
      rw [if_neg (by simp [show isDigitCh c = false from hrest])]
  | cons d ds ih =>
    intro hds acc rest hrest
    have hd : isDigitCh d = true := hds d (by simp)
    simp only [List.cons_append, parseDigitsAux, if_pos hd, List.foldl_cons]
    exact ih (fun c hc => hds c (by simp [hc])) _ rest hrest

theorem foldl_digits_reverse (L : List Nat) (hL : ∀ d ∈ L, d < 10) (a : Nat) :
    ((L.map fun d => Char.ofNat (48 + d)).reverse).foldl
      (fun x c => 10 * x + digitVal c) a =
      a * 10 ^ L.length + Nat.ofDigits 10 L := by
  induction L generalizing a with
  | nil => simp [Nat.ofDigits]
  | cons d L ih =>
    have hd : d < 10 := hL d (by simp)
    simp only [List.map_cons, List.reverse_cons, List.foldl_append, List.foldl_cons,
      List.foldl_nil]
    rw [ih (fun x hx => hL x (by simp [hx])) a]
    have hdv : digitVal (Char.ofNat (48 + d)) = d := by
      unfold digitVal
      rw [toNat_ofNat_small (48 + d) (by omega)]
      omega
    rw [hdv, Nat.ofDigits_cons]
    simp only [List.length_cons, pow_succ]
    ring

theorem natToChars_all_digits (n : Nat) : ∀ c ∈ natToChars n, isDigitCh c = true := by
  intro c hc
  unfold natToChars at hc
  split at hc
  · simp only [List.mem_singleton] at hc
    subst hc
    decide
  · simp only [List.mem_reverse, List.mem_map] at hc
    obtain ⟨d, hd, rfl⟩ := hc
    have : d < 10 := Nat.digits_lt_base (by omega) hd
    unfold isDigitCh
    rw [toNat_ofNat_small (48 + d) (by omega)]
    simp
    omega

theorem charsVal_natToChars (n : Nat) :
    (natToChars n).foldl (fun a c => 10 * a + digitVal c) 0 = n := by
  unfold natToChars
  split
  · simp only [List.foldl_cons, List.foldl_nil]
    have : digitVal (Char.ofNat 48) = 0 := by decide
    omega
  · rw [foldl_digits_reverse _ (fun d hd => Nat.digits_lt_base (by omega) hd) 0]
    simp [Nat.ofDigits_digits]

theorem natToChars_ne_nil (n : Nat) : natToChars n ≠ [] := by
  unfold natToChars
  split
  · simp
  · simp only [ne_eq, List.reverse_eq_nil_iff, List.map_eq_nil_iff]
    exact Nat.digits_ne_nil_iff_ne_zero.mpr (by assumption)

theorem parseNat_append (cs : List Char) (hne : cs ≠ [])
    (hd : ∀ c ∈ cs, isDigitCh c = true) (rest : List Char) (hrest : goodRest rest) :
    parseNat (cs ++ rest) =
      some (cs.foldl (fun a c => 10 * a + digitVal c) 0, rest) := by
  cases cs with
  | nil => cases hne rfl
  | cons c cs =>
    have hc : isDigitCh c = true := hd c (by simp)
    simp only [List.cons_append, parseNat, if_pos hc]
    rw [parseDigitsAux_append cs (fun x hx => hd x (by simp [hx])) (digitVal c) rest
      hrest]
    simp only [List.foldl_cons, Option.some.injEq, Prod.mk.injEq, and_true]
    congr 1
    omega

theorem parseNat_natToChars (n : Nat) (rest : List Char) (hrest : goodRest rest) :
    parseNat (natToChars n ++ rest) = some (n, rest) := by
  rw [parseNat_append (natToChars n) (natToChars_ne_nil n) (natToChars_all_digits n)
    rest hrest, charsVal_natToChars]

theorem hexVal_hexDigitChar : ∀ d < 16, hexVal (hexDigitChar d) = some d := by decide

theorem decodeEscape_unescape (e uc : Char) (h : unescapeChar e = some uc)
    (hne : ¬(e = 'u')) (rest : List Char) :
    decodeEscape (e :: rest) = some (uc, rest) := by
  simp only [decodeEscape, if_neg hne, h]

theorem decodeEscape_u (t : Nat) (ht : t < 32) (rest : List Char) :
    decodeEscape ('u' :: '0' :: '0' :: hexDigitChar (t / 16) ::
      hexDigitChar (t % 16) :: rest) = some (Char.ofNat t, rest) := by
  have h0 : hexVal '0' = some 0 := by decide
  simp only [decodeEscape, if_pos rfl, h0, hexVal_hexDigitChar (t / 16) (by omega),
    hexVal_hexDigitChar (t % 16) (by omega)]
  have hcond : ((0 * 16 + 0) * 16 + t / 16) * 16 + t % 16 < 55296 := by omega
  rw [if_pos hcond]
  have e : ((0 * 16 + 0) * 16 + t / 16) * 16 + t % 16 = t := by omega
  rw [e]
  rw [if_pos trivial]

theorem parseStringBody_backslash (f : Nat) (tail rest2 s0 r0 : List Char)
    (uc : Char) (h : decodeEscape tail = some (uc, rest2))
    (h2 : parseStringBody f rest2 = some (s0, r0)) :
    parseStringBody (f + 1) (jsonBackslashChar :: tail) = some (uc :: s0, r0) := by
  rw [parseStringBody]
  rw [if_neg (show ¬(jsonBackslashChar = jsonQuoteChar) by decide), if_pos rfl, h]
  show (match parseStringBody f rest2 with
        | some (s, r) => some (uc :: s, r)
        | none => none) = some (uc :: s0, r0)
  rw [h2]

theorem parseStringBody_literal (f : Nat) (c : Char) (tail s0 r0 : List Char)
    (hq : ¬(c = jsonQuoteChar)) (hb : ¬(c = jsonBackslashChar))
    (h2 : parseStringBody f tail = some (s0, r0)) :
    parseStringBody (f + 1) (c :: tail) = some (c :: s0, r0) := by
  rw [parseStringBody, if_neg hq, if_neg hb]
  show (match parseStringBody f tail with
        | some (s, r) => some (c :: s, r)
        | none => none) = some (c :: s0, r0)
  rw [h2]

theorem parseStringBody_escape : ∀ (cs : List Char) (fuel : Nat), cs.length < fuel →
    ∀ rest, parseStringBody fuel (escapeJsonString cs ++ (jsonQuoteChar :: rest)) =
      some (cs, rest)
  | [], fuel, hfuel, rest => by
    obtain ⟨f, rfl⟩ : ∃ f, fuel = f + 1 := ⟨fuel - 1, by omega⟩
    simp only [escapeJsonString, List.nil_append, parseStringBody]
    rw [if_pos trivial]
  | c :: cs, fuel, hfuel, rest => by
    obtain ⟨f, rfl⟩ : ∃ f, fuel = f + 1 := ⟨fuel - 1, by omega⟩
    have hf : cs.length < f := by
      simp only [List.length_cons] at hfuel
      omega
    have ih := parseStringBody_escape cs f hf rest
    simp only [escapeJsonString]
    by_cases h1 : c = jsonQuoteChar
    · subst h1
      have hesc : escapeJsonChar jsonQuoteChar = [jsonBackslashChar, jsonQuoteChar] := by
        simp only [escapeJsonChar]
        rw [if_pos trivial]
      rw [hesc]
      simp only [List.cons_append, List.nil_append, List.append_assoc]
      exact parseStringBody_backslash f _ _ _ _ jsonQuoteChar
        (decodeEscape_unescape jsonQuoteChar jsonQuoteChar (by decide) (by decide) _) ih
    · by_cases h2 : c = jsonBackslashChar
      · subst h2
        have hesc : escapeJsonChar jsonBackslashChar =
            [jsonBackslashChar, jsonBackslashChar] := by
          simp only [escapeJsonChar, if_neg h1]
          rw [if_pos trivial]
        rw [hesc]
        simp only [List.cons_append, List.nil_append, List.append_assoc]
        exact parseStringBody_backslash f _ _ _ _ jsonBackslashChar
          (decodeEscape_unescape jsonBackslashChar jsonBackslashChar (by decide)
            (by decide) _) ih
      · by_cases h3 : c.toNat = 8
        · have hesc : escapeJsonChar c = [jsonBackslashChar, 'b'] := by
            simp only [escapeJsonChar, if_neg h1, if_neg h2, if_pos h3]
          have hcc : Char.ofNat 8 = c :=
            char_eq_of_toNat_eq (by rw [toNat_ofNat_small 8 (by omega), h3])
          rw [hesc]
          simp only [List.cons_append, List.nil_append, List.append_assoc]
          conv_rhs => rw [← hcc]
          exact parseStringBody_backslash f _ _ _ _ _
            (decodeEscape_unescape 'b' (Char.ofNat 8) (by decide) (by decide) _) ih
        · by_cases h4 : c.toNat = 9
          · have hesc : escapeJsonChar c = [jsonBackslashChar, 't'] := by
              simp only [escapeJsonChar, if_neg h1, if_neg h2, if_neg h3, if_pos h4]
            have hcc : Char.ofNat 9 = c :=
              char_eq_of_toNat_eq (by rw [toNat_ofNat_small 9 (by omega), h4])
            rw [hesc]
            simp only [List.cons_append, List.nil_append, List.append_assoc]
            conv_rhs => rw [← hcc]
            exact parseStringBody_backslash f _ _ _ _ _
              (decodeEscape_unescape 't' (Char.ofNat 9) (by decide) (by decide) _) ih
          · by_cases h5 : c.toNat = 10
            · have hesc : escapeJsonChar c = [jsonBackslashChar, 'n'] := by
                simp only [escapeJsonChar, if_neg h1, if_neg h2, if_neg h3, if_neg h4,
                  if_pos h5]
              have hcc : Char.ofNat 10 = c :=
                char_eq_of_toNat_eq (by rw [toNat_ofNat_small 10 (by omega), h5])
              rw [hesc]
              simp only [List.cons_append, List.nil_append, List.append_assoc]
              conv_rhs => rw [← hcc]
              exact parseStringBody_backslash f _ _ _ _ _
                (decodeEscape_unescape 'n' (Char.ofNat 10) (by decide) (by decide) _) ih
            · by_cases h6 : c.toNat = 12
              · have hesc : escapeJsonChar c = [jsonBackslashChar, 'f'] := by
                  simp only [escapeJsonChar, if_neg h1, if_neg h2, if_neg h3, if_neg h4,
                    if_neg h5, if_pos h6]
                have hcc : Char.ofNat 12 = c :=
                  char_eq_of_toNat_eq (by rw [toNat_ofNat_small 12 (by omega), h6])
                rw [hesc]
                simp only [List.cons_append, List.nil_append, List.append_assoc]
                conv_rhs => rw [← hcc]
                exact parseStringBody_backslash f _ _ _ _ _
                  (decodeEscape_unescape 'f' (Char.ofNat 12) (by decide) (by decide) _)
                  ih
              · by_cases h7 : c.toNat = 13
                · have hesc : escapeJsonChar c = [jsonBackslashChar, 'r'] := by
                    simp only [escapeJsonChar, if_neg h1, if_neg h2, if_neg h3,
                      if_neg h4, if_neg h5, if_neg h6, if_pos h7]
                  have hcc : Char.ofNat 13 = c :=
                    char_eq_of_toNat_eq (by rw [toNat_ofNat_small 13 (by omega), h7])
                  rw [hesc]
                  simp only [List.cons_append, List.nil_append, List.append_assoc]
                  conv_rhs => rw [← hcc]
                  exact parseStringBody_backslash f _ _ _ _ _
                    (decodeEscape_unescape 'r' (Char.ofNat 13) (by decide) (by decide)
                      _) ih
                · by_cases h8 : c.toNat < 32
                  · have hesc : escapeJsonChar c =
                        [jsonBackslashChar, 'u', '0', '0',
                         hexDigitChar (c.toNat / 16), hexDigitChar (c.toNat % 16)] := by
                      simp only [escapeJsonChar, if_neg h1, if_neg h2, if_neg h3,
                        if_neg h4, if_neg h5, if_neg h6, if_neg h7, if_pos h8]
                    rw [hesc]
                    simp only [List.cons_append, List.nil_append, List.append_assoc]
                    conv_rhs =>
                      rw [show c = Char.ofNat c.toNat from (Char.ofNat_toNat c).symm]
                    exact parseStringBody_backslash f _ _ _ _ _
                      (decodeEscape_u c.toNat h8 _) ih
                  · have hesc : escapeJsonChar c = [c] := by
                      simp only [escapeJsonChar, if_neg h1, if_neg h2, if_neg h3,
                        if_neg h4, if_neg h5, if_neg h6, if_neg h7, if_neg h8]
                    rw [hesc]
                    simp only [List.cons_append, List.nil_append, List.append_assoc]
                    exact parseStringBody_literal f c _ _ _ h1 h2 ih


theorem digit_ne_special (c : Char) (h : isDigitCh c = true) :
    ¬(c = 'n') ∧ ¬(c = 't') ∧ ¬(c = 'f') ∧ ¬(c = jsonQuoteChar) ∧ ¬(c = minusChar) ∧
    ¬(c = rbracketChar) ∧ ¬(c = rbraceChar) ∧ ¬(c = commaChar) ∧ ¬(c = lbracketChar) ∧
    ¬(c = lbraceChar) := by
  refine ⟨?_, ?_, ?_, ?_, ?_, ?_, ?_, ?_, ?_, ?_⟩ <;>
    (intro h2; subst h2; exact absurd h (by decide))

theorem parseJsonVal_cons_eq (fuel : Nat) (c : Char) (rest : List Char) :
    parseJsonVal (fuel + 1) (c :: rest) =
      (if c = 'n' then
        match rest with
        | 'u' :: 'l' :: 'l' :: r => some (JsValue.vNull, r)
        | _ => none
      else if c = 't' then
        match rest with
        | 'r' :: 'u' :: 'e' :: r => some (JsValue.vBool true, r)
        | _ => none
      else if c = 'f' then
        match rest with
        | 'a' :: 'l' :: 's' :: 'e' :: r => some (JsValue.vBool false, r)
        | _ => none
      else if c = jsonQuoteChar then
        match parseStringBody rest.length rest with
        | some (s, r) => some (JsValue.vStr (String.mk s), r)
        | none => none
      else if c = minusChar then
        match parseNat rest with
        | some (m, r) => some (JsValue.vNum (-(m : Int)), r)
        | none => none
      else if isDigitCh c then
        match parseNat (c :: rest) with
        | some (m, r) => some (JsValue.vNum (m : Int), r)
        | none => none
      else if c = lbracketChar then
        match rest with
        | [] => none
        | d :: r2 =>
          if d = rbracketChar then some (JsValue.vArr [], r2)
          else
            match parseArrElems fuel (d :: r2) with
            | some (vs, r) => some (JsValue.vArr vs, r)
            | none => none
      else if c = lbraceChar then
        match rest with
        | [] => none
        | d :: r2 =>
          if d = rbraceChar then some (JsValue.vObj [], r2)
          else
            match parseObjProps fuel (d :: r2) with
            | some (ps, r) => some (JsValue.vObj ps, r)
            | none => none
      else none) := rfl

theorem parseArrElems_cons_eq (fuel : Nat) (cs : List Char) :
    parseArrElems (fuel + 1) cs =
      (match parseJsonVal fuel cs with
      | some (v, r) =>
        match r with
        | [] => none
        | d :: r2 =>
          if d = commaChar then
            match parseArrElems fuel r2 with
            | some (vs, r3) => some (v :: vs, r3)
            | none => none
          else if d = rbracketChar then some ([v], r2)
          else none
      | none => none) := rfl

theorem parseObjProps_cons_eq (fuel : Nat) (cs : List Char) :
    parseObjProps (fuel + 1) cs =
      (match cs with
      | [] => none
      | q :: cs2 =>
        if q = jsonQuoteChar then
          match parseStringBody cs2.length cs2 with
          | some (k, r) =>
            match r with
            | [] => none
            | colon :: r2 =>
              if colon = colonChar then
                match parseJsonVal fuel r2 with
                | some (v, r3) =>
                  match r3 with
                  | [] => none
                  | d :: r4 =>
                    if d = commaChar then
                      match parseObjProps fuel r4 with
                      | some (ps, r5) => some ((String.mk k, v) :: ps, r5)
                      | none => none
                    else if d = rbraceChar then some ([(String.mk k, v)], r4)
                    else none
                | none => none
              else none
          | none => none
        else none) := rfl

theorem parseJsonVal_null (f : Nat) (rest : List Char) :
    parseJsonVal (f + 1) ('n' :: 'u' :: 'l' :: 'l' :: rest) =
      some (JsValue.vNull, rest) := by
  rw [parseJsonVal_cons_eq, if_pos rfl]
  rfl

theorem parseJsonVal_true (f : Nat) (rest : List Char) :
    parseJsonVal (f + 1) ('t' :: 'r' :: 'u' :: 'e' :: rest) =
      some (JsValue.vBool true, rest) := by
  rw [parseJsonVal_cons_eq, if_neg (by decide), if_pos rfl]
  rfl

theorem parseJsonVal_false (f : Nat) (rest : List Char) :
    parseJsonVal (f + 1) ('f' :: 'a' :: 'l' :: 's' :: 'e' :: rest) =
      some (JsValue.vBool false, rest) := by
  rw [parseJsonVal_cons_eq, if_neg (by decide), if_neg (by decide), if_pos rfl]
  rfl

theorem parseJsonVal_digit (f : Nat) (c : Char) (tail0 : List Char) (m : Nat)
    (r : List Char) (hd : isDigitCh c = true)
    (hp : parseNat (c :: tail0) = some (m, r)) :
    parseJsonVal (f + 1) (c :: tail0) = some (JsValue.vNum (m : Int), r) := by
  obtain ⟨hn, ht, hf4, hq, hm, _, _, _, _, _⟩ := digit_ne_special c hd
  rw [parseJsonVal_cons_eq, if_neg hn, if_neg ht, if_neg hf4, if_neg hq, if_neg hm,
    if_pos hd]
  show (match parseNat (c :: tail0) with
        | some (m, r) => some (JsValue.vNum (m : Int), r)
        | none => none) = some (JsValue.vNum (m : Int), r)
  rw [hp]

theorem parseJsonVal_minus (f : Nat) (tail0 : List Char) (m : Nat) (r : List Char)
    (hp : parseNat tail0 = some (m, r)) :
    parseJsonVal (f + 1) (minusChar :: tail0) = some (JsValue.vNum (-(m : Int)), r) := by
  rw [parseJsonVal_cons_eq, if_neg (by decide), if_neg (by decide), if_neg (by decide),
    if_neg (by decide), if_pos rfl]
  show (match parseNat tail0 with
        | some (m, r) => some (JsValue.vNum (-(m : Int)), r)
        | none => none) = some (JsValue.vNum (-(m : Int)), r)
  rw [hp]

theorem parseJsonVal_string (f : Nat) (tail0 : List Char) (s : List Char)
    (r : List Char) (hp : parseStringBody tail0.length tail0 = some (s, r)) :
    parseJsonVal (f + 1) (jsonQuoteChar :: tail0) =
      some (JsValue.vStr (String.mk s), r) := by
  rw [parseJsonVal_cons_eq, if_neg (by decide), if_neg (by decide), if_neg (by decide),
    if_pos rfl]
  show (match parseStringBody tail0.length tail0 with
        | some (s, r) => some (JsValue.vStr (String.mk s), r)
        | none => none) = some (JsValue.vStr (String.mk s), r)
  rw [hp]

theorem parseJsonVal_arr_empty (f : Nat) (rest : List Char) :
    parseJsonVal (f + 1) (lbracketChar :: rbracketChar :: rest) =
      some (JsValue.vArr [], rest) := by
  rw [parseJsonVal_cons_eq, if_neg (by decide), if_neg (by decide), if_neg (by decide),
    if_neg (by decide), if_neg (by decide), if_neg (by decide), if_pos rfl]
  show (if rbracketChar = rbracketChar then some (JsValue.vArr [], rest)
        else match parseArrElems f (rbracketChar :: rest) with
             | some (vs, r) => some (JsValue.vArr vs, r)
             | none => none) = some (JsValue.vArr [], rest)
  rw [if_pos rfl]

theorem parseJsonVal_arr (f : Nat) (d : Char) (r2 : List Char) (vs : List JsValue)
    (r : List Char) (hd : ¬(d = rbracketChar))
    (hp : parseArrElems f (d :: r2) = some (vs, r)) :
    parseJsonVal (f + 1) (lbracketChar :: d :: r2) = some (JsValue.vArr vs, r) := by
  rw [parseJsonVal_cons_eq, if_neg (by decide), if_neg (by decide), if_neg (by decide),
    if_neg (by decide), if_neg (by decide), if_neg (by decide), if_pos rfl]
  show (if d = rbracketChar then some (JsValue.vArr [], r2)
        else match parseArrElems f (d :: r2) with
             | some (vs, r) => some (JsValue.vArr vs, r)
             | none => none) = some (JsValue.vArr vs, r)
  rw [if_neg hd, hp]

theorem parseJsonVal_obj_empty (f : Nat) (rest : List Char) :
    parseJsonVal (f + 1) (lbraceChar :: rbraceChar :: rest) =
      some (JsValue.vObj [], rest) := by
  rw [parseJsonVal_cons_eq, if_neg (by decide), if_neg (by decide), if_neg (by decide),
    if_neg (by decide), if_neg (by decide), if_neg (by decide), if_neg (by decide),
    if_pos rfl]
  show (if rbraceChar = rbraceChar then some (JsValue.vObj [], rest)
        else match parseObjProps f (rbraceChar :: rest) with
             | some (ps, r) => some (JsValue.vObj ps, r)
             | none => none) = some (JsValue.vObj [], rest)
  rw [if_pos rfl]

theorem parseJsonVal_obj (f : Nat) (d : Char) (r2 : List Char)
    (ps : List (String × JsValue)) (r : List Char) (hd : ¬(d = rbraceChar))
    (hp : parseObjProps f (d :: r2) = some (ps, r)) :
    parseJsonVal (f + 1) (lbraceChar :: d :: r2) = some (JsValue.vObj ps, r) := by
  rw [parseJsonVal_cons_eq, if_neg (by decide), if_neg (by decide), if_neg (by decide),
    if_neg (by decide), if_neg (by decide), if_neg (by decide), if_neg (by decide),
    if_pos rfl]
  show (if d = rbraceChar then some (JsValue.vObj [], r2)
        else match parseObjProps f (d :: r2) with
             | some (ps, r) => some (JsValue.vObj ps, r)
             | none => none) = some (JsValue.vObj ps, r)
  rw [if_neg hd, hp]

theorem parseArrElems_last (f : Nat) (cs0 : List Char) (v : JsValue)
    (rest : List Char) (hp : parseJsonVal f cs0 = some (v, rbracketChar :: rest)) :
    parseArrElems (f + 1) cs0 = some ([v], rest) := by
  rw [parseArrElems_cons_eq, hp]
  show (if rbracketChar = commaChar then
          match parseArrElems f rest with
          | some (vs, r3) => some (v :: vs, r3)
          | none => none
        else if rbracketChar = rbracketChar then some ([v], rest) else none) =
    some ([v], rest)
  rw [if_neg (by decide), if_pos rfl]

theorem parseArrElems_cons (f : Nat) (cs0 : List Char) (v : JsValue)
    (rest2 : List Char) (vs : List JsValue) (r : List Char)
    (hp : parseJsonVal f cs0 = some (v, commaChar :: rest2))
    (hrec : parseArrElems f rest2 = some (vs, r)) :
    parseArrElems (f + 1) cs0 = some (v :: vs, r) := by
  rw [parseArrElems_cons_eq, hp]
  show (if commaChar = commaChar then
          match parseArrElems f rest2 with
          | some (vs, r3) => some (v :: vs, r3)
          | none => none
        else if commaChar = rbracketChar then some ([v], rest2) else none) =
    some (v :: vs, r)
  rw [if_pos rfl]
  show (match parseArrElems f rest2 with
        | some (vs, r3) => some (v :: vs, r3)
        | none => none) = some (v :: vs, r)
  rw [hrec]

theorem parseObjProps_last (f : Nat) (cs2 : List Char) (k : List Char)
    (r2 : List Char) (v : JsValue) (rest : List Char)
    (hk : parseStringBody cs2.length cs2 = some (k, colonChar :: r2))
    (hv : parseJsonVal f r2 = some (v, rbraceChar :: rest)) :
    parseObjProps (f + 1) (jsonQuoteChar :: cs2) = some ([(String.mk k, v)], rest) := by
  rw [parseObjProps_cons_eq]
  show (if jsonQuoteChar = jsonQuoteChar then
          match parseStringBody cs2.length cs2 with
          | some (k, r) =>
            match r with
            | [] => none
            | colon :: r2 =>
              if colon = colonChar then
                match parseJsonVal f r2 with
                | some (v, r3) =>
                  match r3 with
                  | [] => none
                  | d :: r4 =>
                    if d = commaChar then
                      match parseObjProps f r4 with
                      | some (ps, r5) => some ((String.mk k, v) :: ps, r5)
                      | none => none
                    else if d = rbraceChar then some ([(String.mk k, v)], r4)
                    else none
                | none => none
              else none
          | none => none
        else none) = some ([(String.mk k, v)], rest)
  rw [if_pos rfl, hk]
  show (if colonChar = colonChar then
          match parseJsonVal f r2 with
          | some (v, r3) =>
            match r3 with
            | [] => none
            | d :: r4 =>
              if d = commaChar then
                match parseObjProps f r4 with
                | some (ps, r5) => some ((String.mk k, v) :: ps, r5)
                | none => none
              else if d = rbraceChar then some ([(String.mk k, v)], r4)
              else none
          | none => none
        else none) = some ([(String.mk k, v)], rest)
  rw [if_pos rfl, hv]
  show (if rbraceChar = commaChar then
          match parseObjProps f rest with
          | some (ps, r5) => some ((String.mk k, v) :: ps, r5)
          | none => none
        else if rbraceChar = rbraceChar then some ([(String.mk k, v)], rest)
        else none) = some ([(String.mk k, v)], rest)
  rw [if_neg (by decide), if_pos rfl]

theorem parseObjProps_cons (f : Nat) (cs2 : List Char) (k : List Char)
    (r2 : List Char) (v : JsValue) (rest2 : List Char)
    (ps : List (String × JsValue)) (r : List Char)
    (hk : parseStringBody cs2.length cs2 = some (k, colonChar :: r2))
    (hv : parseJsonVal f r2 = some (v, commaChar :: rest2))
    (hrec : parseObjProps f rest2 = some (ps, r)) :
    parseObjProps (f + 1) (jsonQuoteChar :: cs2) =
      some ((String.mk k, v) :: ps, r) := by
  rw [parseObjProps_cons_eq]
  show (if jsonQuoteChar = jsonQuoteChar then
          match parseStringBody cs2.length cs2 with
          | some (k, r) =>
            match r with
            | [] => none
            | colon :: r2 =>
              if colon = colonChar then
                match parseJsonVal f r2 with
                | some (v, r3) =>
                  match r3 with
                  | [] => none
                  | d :: r4 =>
                    if d = commaChar then
                      match parseObjProps f r4 with
                      | some (ps, r5) => some ((String.mk k, v) :: ps, r5)
                      | none => none
                    else if d = rbraceChar then some ([(String.mk k, v)], r4)
                    else none
                | none => none
              else none
          | none => none
        else none) = some ((String.mk k, v) :: ps, r)
  rw [if_pos rfl, hk]
  show (if colonChar = colonChar then
          match parseJsonVal f r2 with
          | some (v, r3) =>
            match r3 with
            | [] => none
            | d :: r4 =>
              if d = commaChar then
                match parseObjProps f r4 with
                | some (ps, r5) => some ((String.mk k, v) :: ps, r5)
                | none => none
              else if d = rbraceChar then some ([(String.mk k, v)], r4)
              else none
          | none => none
        else none) = some ((String.mk k, v) :: ps, r)
  rw [if_pos rfl, hv]
  show (if commaChar = commaChar then
          match parseObjProps f rest2 with
          | some (ps, r5) => some ((String.mk k, v) :: ps, r5)
          | none => none
        else if commaChar = rbraceChar then some ([(String.mk k, v)], rest2)
        else none) = some ((String.mk k, v) :: ps, r)
  rw [if_pos rfl]
  show (match parseObjProps f rest2 with
        | some (ps, r5) => some ((String.mk k, v) :: ps, r5)
        | none => none) = some ((String.mk k, v) :: ps, r)
  rw [hrec]

theorem escapeJsonChar_length_pos (c : Char) : 1 ≤ (escapeJsonChar c).length := by
  unfold escapeJsonChar
  repeat' split
  all_goals simp

theorem length_le_escapeJsonString (cs : List Char) :
    cs.length ≤ (escapeJsonString cs).length := by
  induction cs with
  | nil => simp [escapeJsonString]
  | cons c rest ih =>
    simp only [escapeJsonString, List.length_cons, List.length_append]
    have := escapeJsonChar_length_pos c
    omega

theorem jsonFuelSize_pos (v : JsValue) : 1 ≤ jsonFuelSize v := by
  cases v <;> simp [jsonFuelSize]

theorem jsonFuelSizeList_pos (xs : List JsValue) : 1 ≤ jsonFuelSizeList xs := by
  cases xs with
  | nil => simp [jsonFuelSizeList]
  | cons v rest => simp only [jsonFuelSizeList]; omega

theorem jsonFuelSizeProps_pos (ps : List (String × JsValue)) :
    1 ≤ jsonFuelSizeProps ps := by
  cases ps with
  | nil => simp [jsonFuelSizeProps]
  | cons p rest => simp only [jsonFuelSizeProps]; omega

theorem natToChars_head_digit (n : Nat) :
    ∃ c cs', natToChars n = c :: cs' ∧ isDigitCh c = true := by
  cases h : natToChars n with
  | nil => exact absurd h (natToChars_ne_nil n)
  | cons c cs' =>
    refine ⟨c, cs', rfl, natToChars_all_digits n c ?_⟩
    rw [h]
    exact List.mem_cons_self c cs'

theorem serializeJson_head_ne (v : JsValue) :
    ∃ c cs', serializeJson v = c :: cs' ∧ ¬(c = rbracketChar) ∧ ¬(c = rbraceChar) ∧
      ¬(c = commaChar) := by
  cases v with
  | vNull =>
    exact ⟨'n', ['u', 'l', 'l'], by simp [serializeJson], by decide, by decide,
      by decide⟩
  | vBool b =>
    cases b with
    | true =>
      exact ⟨'t', ['r', 'u', 'e'], by simp [serializeJson], by decide, by decide,
        by decide⟩
    | false =>
      exact ⟨'f', ['a', 'l', 's', 'e'], by simp [serializeJson], by decide, by decide,
        by decide⟩
  | vNum n =>
    by_cases hn : n < 0
    · refine ⟨minusChar, natToChars n.natAbs, ?_, by decide, by decide, by decide⟩
      simp [serializeJson, intToChars, if_pos hn]
    · obtain ⟨c, cs', hsplit, hdig⟩ := natToChars_head_digit n.toNat
      obtain ⟨_, _, _, _, _, hbr, hbrc, hcm, _, _⟩ := digit_ne_special c hdig
      refine ⟨c, cs', ?_, hbr, hbrc, hcm⟩
      simp [serializeJson, intToChars, if_neg hn, hsplit]
  | vStr s =>
    exact ⟨jsonQuoteChar, escapeJsonString s.toList ++ [jsonQuoteChar],
      by simp [serializeJson], by decide, by decide, by decide⟩
  | vArr xs =>
    exact ⟨lbracketChar, serializeJsonList xs ++ [rbracketChar],
      by simp [serializeJson], by decide, by decide, by decide⟩
  | vObj fs =>
    exact ⟨lbraceChar, serializeJsonProps fs ++ [rbraceChar],
      by simp [serializeJson], by decide, by decide, by decide⟩

theorem parse_serialize_all : ∀ fuel : Nat,
    (∀ v : JsValue, jsonFuelSize v ≤ fuel → ∀ rest : List Char, goodRest rest →
      parseJsonVal fuel (serializeJson v ++ rest) = some (v, rest)) ∧
    (∀ xs : List JsValue, xs ≠ [] → jsonFuelSizeList xs ≤ fuel → ∀ rest : List Char,
      parseArrElems fuel (serializeJsonList xs ++ (rbracketChar :: rest)) =
        some (xs, rest)) ∧
    (∀ ps : List (String × JsValue), ps ≠ [] → jsonFuelSizeProps ps ≤ fuel →
      ∀ rest : List Char,
      parseObjProps fuel (serializeJsonProps ps ++ (rbraceChar :: rest)) =
        some (ps, rest)) := by
  intro fuel
  induction fuel with
  | zero =>
    refine ⟨?_, ?_, ?_⟩
    · intro v hv
      exact absurd hv (by have := jsonFuelSize_pos v; omega)
    · intro xs _ hxs
      exact absurd hxs (by have := jsonFuelSizeList_pos xs; omega)
    · intro ps _ hps
      exact absurd hps (by have := jsonFuelSizeProps_pos ps; omega)
  | succ f ih =>
    obtain ⟨ihV, ihA, ihO⟩ := ih
    refine ⟨?_, ?_, ?_⟩
    · intro v hv rest hrest
      cases v with
      | vNull =>
        simp only [serializeJson, List.cons_append, List.nil_append]
        exact parseJsonVal_null f rest
      | vBool b =>
        cases b with
        | true =>
          simp only [serializeJson, List.cons_append, List.nil_append]
          exact parseJsonVal_true f rest
        | false =>
          simp only [serializeJson, List.cons_append, List.nil_append]
          exact parseJsonVal_false f rest
      | vNum n =>
        by_cases hn : n < 0
        · have hser : serializeJson (JsValue.vNum n) =
              minusChar :: natToChars n.natAbs := by
            simp [serializeJson, intToChars, if_pos hn]
          rw [hser, List.cons_append]
          have hp := parseNat_natToChars n.natAbs rest hrest
          rw [parseJsonVal_minus f (natToChars n.natAbs ++ rest) n.natAbs rest hp]
          have e : (-(n.natAbs : Int)) = n := by omega
          rw [e]
        · have hser : serializeJson (JsValue.vNum n) = natToChars n.toNat := by
            simp [serializeJson, intToChars, if_neg hn]
          obtain ⟨c, cs', hsplit, hdig⟩ := natToChars_head_digit n.toNat
          have hp : parseNat (c :: (cs' ++ rest)) = some (n.toNat, rest) := by
            have h0 := parseNat_natToChars n.toNat rest hrest
            rw [hsplit] at h0
            simpa using h0
          rw [hser, hsplit, List.cons_append]
          rw [parseJsonVal_digit f c (cs' ++ rest) n.toNat rest hdig hp]
          have e : ((n.toNat : Int)) = n := by omega
          rw [e]
      | vStr s =>
        have hser : serializeJson (JsValue.vStr s) =
            jsonQuoteChar :: (escapeJsonString s.toList ++ [jsonQuoteChar]) := by
          simp [serializeJson]
        rw [hser, List.cons_append, List.append_assoc]
        simp only [List.singleton_append]
        have hlen : s.toList.length <
            (escapeJsonString s.toList ++ (jsonQuoteChar :: rest)).length := by
          have := length_le_escapeJsonString s.toList
          simp only [List.length_append, List.length_cons]
          omega
        have hp := parseStringBody_escape s.toList
          ((escapeJsonString s.toList ++ (jsonQuoteChar :: rest)).length) hlen rest
        rw [parseJsonVal_string f _ s.toList rest hp]
        rfl
      | vArr xs =>
        cases xs with
        | nil =>
          have hser : serializeJson (JsValue.vArr []) =
              [lbracketChar, rbracketChar] := by
            simp [serializeJson, serializeJsonList]
          rw [hser]
          simp only [List.cons_append, List.nil_append]
          exact parseJsonVal_arr_empty f rest
        | cons x xs' =>
          obtain ⟨c0, cs0, hx, hbr, _, _⟩ := serializeJson_head_ne x
          have hlist : ∃ t, serializeJsonList (x :: xs') = c0 :: t := by
            cases xs' with
            | nil => exact ⟨cs0, by simp [serializeJsonList, hx]⟩
            | cons y ys =>
              exact ⟨cs0 ++ commaChar :: serializeJsonList (y :: ys), by
                simp [serializeJsonList, hx]⟩
          obtain ⟨t, ht⟩ := hlist
          have hsize : jsonFuelSizeList (x :: xs') ≤ f := by
            have he : jsonFuelSize (JsValue.vArr (x :: xs')) =
                1 + jsonFuelSizeList (x :: xs') := by simp [jsonFuelSize]
            omega
          have harr := ihA (x :: xs') (by simp) hsize rest
          rw [ht] at harr
          simp only [List.cons_append] at harr
          have hser : serializeJson (JsValue.vArr (x :: xs')) =
              lbracketChar :: (serializeJsonList (x :: xs') ++ [rbracketChar]) := by
            simp [serializeJson]
          rw [hser, ht]
          simp only [List.cons_append, List.append_assoc, List.singleton_append]
          exact parseJsonVal_arr f c0 _ (x :: xs') rest hbr harr
      | vObj fs =>
        cases fs with
        | nil =>
          have hser : serializeJson (JsValue.vObj []) =
              [lbraceChar, rbraceChar] := by
            simp [serializeJson, serializeJsonProps]
          rw [hser]
          simp only [List.cons_append, List.nil_append]
          exact parseJsonVal_obj_empty f rest
        | cons p ps' =>
          obtain ⟨k, v⟩ := p
          have hop : ∃ t, serializeJsonProps ((k, v) :: ps') = jsonQuoteChar :: t := by
            cases ps' with
            | nil =>
              exact ⟨escapeJsonString k.toList ++
                jsonQuoteChar :: colonChar :: serializeJson v, by
                simp [serializeJsonProps]⟩
            | cons q qs =>
              exact ⟨(escapeJsonString k.toList ++
                  jsonQuoteChar :: colonChar :: serializeJson v) ++
                  commaChar :: serializeJsonProps (q :: qs), by
                simp [serializeJsonProps]⟩
          obtain ⟨t, ht⟩ := hop
          have hsize : jsonFuelSizeProps ((k, v) :: ps') ≤ f := by
            have he : jsonFuelSize (JsValue.vObj ((k, v) :: ps')) =
                1 + jsonFuelSizeProps ((k, v) :: ps') := by simp [jsonFuelSize]
            omega
          have hobj := ihO ((k, v) :: ps') (by simp) hsize rest
          rw [ht] at hobj
          simp only [List.cons_append] at hobj
          have hser : serializeJson (JsValue.vObj ((k, v) :: ps')) =
              lbraceChar ::
                (serializeJsonProps ((k, v) :: ps') ++ [rbraceChar]) := by
            simp [serializeJson]
          rw [hser, ht]
          simp only [List.cons_append, List.append_assoc, List.singleton_append]
          exact parseJsonVal_obj f jsonQuoteChar _ ((k, v) :: ps') rest (by decide)
            hobj
    · intro xs hne hsize rest
      cases xs with
      | nil => cases hne rfl
      | cons x xs' =>
        cases xs' with
        | nil =>
          have hsx : jsonFuelSize x ≤ f := by
            simp only [jsonFuelSizeList] at hsize
            omega
          have hp := ihV x hsx (rbracketChar :: rest) (goodRest_cons _ _ (by decide))
          have hser : serializeJsonList [x] = serializeJson x := by
            simp [serializeJsonList]
          rw [hser]
          exact parseArrElems_last f _ x rest hp
        | cons y ys =>
          have hsx : jsonFuelSize x ≤ f := by
            simp only [jsonFuelSizeList] at hsize
            omega
          have hsl : jsonFuelSizeList (y :: ys) ≤ f := by
            simp only [jsonFuelSizeList] at hsize ⊢
            have := jsonFuelSize_pos x
            omega
          have hp := ihV x hsx
            (commaChar :: (serializeJsonList (y :: ys) ++ (rbracketChar :: rest)))
            (goodRest_cons _ _ (by decide))
          have hrec := ihA (y :: ys) (by simp) hsl rest
          have hser : serializeJsonList (x :: y :: ys) =
              serializeJson x ++ commaChar :: serializeJsonList (y :: ys) := by
            simp [serializeJsonList]
          rw [hser]
          simp only [List.append_assoc, List.cons_append]
          exact parseArrElems_cons f _ x _ (y :: ys) rest hp hrec
    · intro ps hne hsize rest
      cases ps with
      | nil => cases hne rfl
      | cons p ps' =>
        obtain ⟨k, v⟩ := p
        cases ps' with
        | nil =>
          have hsv : jsonFuelSize v ≤ f := by
            simp [jsonFuelSizeProps] at hsize
            omega
          have hv2 := ihV v hsv (rbraceChar :: rest) (goodRest_cons _ _ (by decide))
          have hser : serializeJsonProps [(k, v)] =
              jsonQuoteChar :: (escapeJsonString k.toList ++
                jsonQuoteChar :: colonChar :: serializeJson v) := by
            simp [serializeJsonProps]
          rw [hser]
          simp only [List.cons_append, List.append_assoc]
          have hlen : k.toList.length <
              (escapeJsonString k.toList ++
                (jsonQuoteChar :: (colonChar ::
                  (serializeJson v ++ rbraceChar :: rest)))).length := by
            have := length_le_escapeJsonString k.toList
            simp only [List.length_append, List.length_cons]
            omega
          have hk := parseStringBody_escape k.toList _ hlen
            (colonChar :: (serializeJson v ++ rbraceChar :: rest))
          have hres := parseObjProps_last f _ k.toList _ v rest hk hv2
          exact hres
        | cons q qs =>
          have hsv : jsonFuelSize v ≤ f := by
            simp [jsonFuelSizeProps] at hsize
            omega
          have hsp : jsonFuelSizeProps (q :: qs) ≤ f := by
            simp [jsonFuelSizeProps] at hsize ⊢
            have := jsonFuelSize_pos v
            omega
          have hv2 := ihV v hsv
            (commaChar :: (serializeJsonProps (q :: qs) ++ (rbraceChar :: rest)))
            (goodRest_cons _ _ (by decide))
          have hrec := ihO (q :: qs) (by simp) hsp rest
          have hser : serializeJsonProps ((k, v) :: q :: qs) =
              (jsonQuoteChar :: (escapeJsonString k.toList ++
                jsonQuoteChar :: colonChar :: serializeJson v)) ++
                commaChar :: serializeJsonProps (q :: qs) := by
            simp [serializeJsonProps]
          rw [hser]
          simp only [List.cons_append, List.append_assoc]
          have hlen : k.toList.length <
              (escapeJsonString k.toList ++
                (jsonQuoteChar :: (colonChar :: (serializeJson v ++
                  (commaChar :: (serializeJsonProps (q :: qs) ++
                    (rbraceChar :: rest))))))).length := by
            have := length_le_escapeJsonString k.toList
            simp only [List.length_append, List.length_cons]
            omega
          have hk := parseStringBody_escape k.toList _ hlen
            (colonChar :: (serializeJson v ++
              (commaChar :: (serializeJsonProps (q :: qs) ++ (rbraceChar :: rest)))))
          have hres := parseObjProps_cons f _ k.toList _ v _ (q :: qs) rest hk hv2
            hrec
          exact hres

theorem parseJsonVal_serializeJson (v : JsValue) :
    parseJsonVal (jsonFuelSize v) (serializeJson v) = some (v, []) := by
  have h := (parse_serialize_all (jsonFuelSize v)).1 v (le_refl _) [] True.intro
  simpa using h

/-- C9 counterexample: with a configured key and non-null but falsy data
(`false`), the encryption branch is skipped (`this.encryptionValue && data`
tests truthiness, not non-nullness), so the body stays the plain
`\x7bmessage\x7d` object rather than the base64 string the claim promises. -/
theorem C9_falsy_data_not_encrypted :
    (JsValue.vBool false).isNull = false ∧
    encConfigured ⟨false, "1", some "k", "r", "p"⟩ = true ∧
    (apiMatch ⟨false, "1", some "k", "r", "p"⟩ "ok" "get"
        (some (JsValue.vBool false)) "" none none 0 "ts").body =
      JsValue.vObj [("message", JsValue.vStr "Data retrieved successfully")] ∧
    ((apiMatch ⟨false, "1", some "k", "r", "p"⟩ "ok" "get"
        (some (JsValue.vBool false)) "" none none 0 "ts").body).isObj = true := by
  refine ⟨rfl, by decide, rfl, rfl⟩

/-- C9 (amended): when a non-empty encryption key is configured, the handler
exists, and the data is truthy, `match` replaces the body with the base64
encoding of the UTF-8 bytes of the JSON serialization of the data and sets the
`X-Encrypted` header to `'true'`; base64-decoding the body, UTF-8-decoding the
bytes, and parsing the JSON text yields back the original data. -/
theorem C9_encrypted_body_roundtrip (cfg : ApiConfig) (ty verb : String)
    (data : JsValue) (message : String) (statusCode : Option Nat)
    (responseId : Option String) (responseTime : Nat) (timestamp : String)
    (henc : encConfigured cfg = true) (hh : handlerExists ty verb = true)
    (htr : data.jsTruthy = true) :
    (apiMatch cfg ty verb (some data) message statusCode responseId responseTime
        timestamp).body = JsValue.vStr (encryptDataString data) ∧
    ("X-Encrypted", "true") ∈
      (apiMatch cfg ty verb (some data) message statusCode responseId responseTime
        timestamp).headers ∧
    base64Decode (String.toList (encryptDataString data)) =
      some (utf8Encode (serializeJson data)) ∧
    utf8Decode (utf8Encode (serializeJson data)) = some (serializeJson data) ∧
    parseJsonVal (jsonFuelSize data) (serializeJson data) = some (data, []) := by
  refine ⟨?_, ?_, ?_, utf8_roundtrip (serializeJson data),
    parseJsonVal_serializeJson data⟩
  · simp [apiMatch, hh, henc, htr]
  · simp only [apiMatch, hh, Bool.not_true, Bool.false_eq_true, if_false, henc, htr,
      Bool.and_self, if_true]
    simp [setHeader, apiHeaders, henc]
  · show base64Decode (String.toList (String.mk (base64Encode
      (utf8Encode (serializeJson data))))) = some (utf8Encode (serializeJson data))
    exact base64_roundtrip (utf8Encode (serializeJson data))
      (utf8Encode_lt_256 (serializeJson data))

theorem C9_encrypted_body_roundtrip_witness :
    encConfigured ⟨false, "1", some "k", "r", "p"⟩ = true ∧
    handlerExists "ok" "get" = true ∧
    (JsValue.vObj [("a", JsValue.vNum 1)]).jsTruthy = true ∧
    ((apiMatch ⟨false, "1", some "k", "r", "p"⟩ "ok" "get"
        (some (JsValue.vObj [("a", JsValue.vNum 1)])) "" none none 0 "ts").body =
      JsValue.vStr (encryptDataString (JsValue.vObj [("a", JsValue.vNum 1)])) ∧
    ("X-Encrypted", "true") ∈
      (apiMatch ⟨false, "1", some "k", "r", "p"⟩ "ok" "get"
        (some (JsValue.vObj [("a", JsValue.vNum 1)])) "" none none 0 "ts").headers ∧
    base64Decode
        (String.toList (encryptDataString (JsValue.vObj [("a", JsValue.vNum 1)]))) =
      some (utf8Encode (serializeJson (JsValue.vObj [("a", JsValue.vNum 1)]))) ∧
    utf8Decode (utf8Encode (serializeJson (JsValue.vObj [("a", JsValue.vNum 1)]))) =
      some (serializeJson (JsValue.vObj [("a", JsValue.vNum 1)])) ∧
    parseJsonVal (jsonFuelSize (JsValue.vObj [("a", JsValue.vNum 1)]))
        (serializeJson (JsValue.vObj [("a", JsValue.vNum 1)])) =
      some (JsValue.vObj [("a", JsValue.vNum 1)], [])) :=
  ⟨by decide, by decide, rfl,
   C9_encrypted_body_roundtrip ⟨false, "1", some "k", "r", "p"⟩ "ok" "get"
     (JsValue.vObj [("a", JsValue.vNum 1)]) "" none none 0 "ts"
     (by decide) (by decide) rfl⟩
